import Mathlib

/-!
A shallow embedding, in Lean 4, of the math-export core of the PromptPress
repository (file src/app/api/docx/route.ts), together with theorems that
settle the claims of the specification against this embedding.

Modelling conventions.

JavaScript strings are modelled as Lean strings, manipulated through their
underlying character lists; all characters occurring in the statements below
live in the Basic Multilingual Plane, where JavaScript UTF-16 indices and
code-point indices agree.  The JavaScript regular-expression rewrites used by
the source are translated pattern by pattern into specialised scanning
functions (each documented with the regex it implements).  Loops of the form
`while (changed)` are modelled with an explicit fuel argument; the fuel passed
by the wrapper definitions is provably sufficient, so the wrappers compute the
same fixpoint the source loops reach.

The XML DOM trees manipulated by the OMML repair passes are modelled by the
inductive type `XNode` below.  The external libraries used by the source
(mml2omml, DOMParser, XMLSerializer; all outside this repository) are treated
as parameters: functions of the embedding that invoke them take them as
arguments, and concrete instantiations are supplied in witnesses and
counterexamples.
-/

namespace PromptPress

/-! ### Character and string primitives (JavaScript semantics) -/

/-- The set matched by the JavaScript regex class `\s`. -/
def jsWs (c : Char) : Bool :=
  c == ' ' || c == '\t' || c == '\n' || (c.toNat == 0x0B) || (c.toNat == 0x0C) ||
  c == '\r' || c.toNat == 0xA0 || c.toNat == 0x1680 ||
  (0x2000 ≤ c.toNat && c.toNat ≤ 0x200A) || c.toNat == 0x2028 || c.toNat == 0x2029 ||
  c.toNat == 0x202F || c.toNat == 0x205F || c.toNat == 0x3000 || c.toNat == 0xFEFF

/-- The set matched by the JavaScript regex class `\w` (used for `\b` boundaries). -/
def jsWord (c : Char) : Bool :=
  ('a' ≤ c && c ≤ 'z') || ('A' ≤ c && c ≤ 'Z') || ('0' ≤ c && c ≤ '9') || c == '_'

/-- ASCII lower-casing, enough for the case-insensitive (`/i`) patterns of the
source, which are all ASCII. -/
def lowerAscii (c : Char) : Char :=
  if 'A' ≤ c && c ≤ 'Z' then Char.ofNat (c.toNat + 32) else c

/-- Does the character list start with the given pattern? -/
def startsWithList : List Char → List Char → Bool
  | [], _ => true
  | _ :: _, [] => false
  | p :: ps, c :: cs => p == c && startsWithList ps cs

/-- Case-insensitive (ASCII) variant of `startsWithList`. -/
def startsWithListCI : List Char → List Char → Bool
  | [], _ => true
  | _ :: _, [] => false
  | p :: ps, c :: cs => lowerAscii p == lowerAscii c && startsWithListCI ps cs

/-- First index at or after the accumulator where the pattern starts. -/
def findSubAux (pat : List Char) : List Char → Nat → Option Nat
  | [], i => if pat.isEmpty then some i else none
  | s@(_ :: rest), i => if startsWithList pat s then some i else findSubAux pat rest (i + 1)

/-- Case-insensitive variant of `findSubAux`. -/
def findSubAuxCI (pat : List Char) : List Char → Nat → Option Nat
  | [], i => if pat.isEmpty then some i else none
  | s@(_ :: rest), i => if startsWithListCI pat s then some i else findSubAuxCI pat rest (i + 1)

/-- JavaScript `s.includes(pat)`. -/
def strHasSub (s pat : String) : Bool :=
  (findSubAux pat.data s.data 0).isSome

/-- JavaScript `s.indexOf(pat)` (search from the start). -/
def jsIndexOf (s pat : String) : Option Nat :=
  findSubAux pat.data s.data 0

/-- JavaScript `s.indexOf(pat, fromIdx)`. -/
def jsIndexOfFrom (s pat : String) (fromIdx : Nat) : Option Nat :=
  (findSubAux pat.data (s.data.drop fromIdx) 0).map (· + fromIdx)

/-- JavaScript `s.lastIndexOf(pat, fromIdx)`: the largest start position not
exceeding `fromIdx` at which `pat` occurs. -/
def jsLastIndexOf (s pat : String) (fromIdx : Nat) : Option Nat :=
  ((List.range (fromIdx + 1)).filter fun i => startsWithList pat.data (s.data.drop i)).getLast?

/-- JavaScript `s.slice(a, b)` for `a ≤ b` (character positions). -/
def jsSlice (s : String) (a b : Nat) : String :=
  ⟨(s.data.drop a).take (b - a)⟩

/-- JavaScript `s.slice(a)`. -/
def jsSliceFrom (s : String) (a : Nat) : String :=
  ⟨s.data.drop a⟩

/-- JavaScript `s.trim()` (both ends, `\s` class). -/
def jsTrim (s : String) : String :=
  ⟨(s.data.dropWhile jsWs).reverse.dropWhile jsWs |>.reverse⟩

/-- Global replacement of a literal pattern (the JavaScript
`s.replace(/lit/g, repl)` for a literal `lit`): scan left to right, never
rescanning replaced text.  Fuel-driven; the wrappers pass the input length,
which bounds the number of scan steps. -/
def replaceAllAux (pat repl : List Char) : Nat → List Char → List Char
  | _, [] => []
  | 0, s => s
  | fuel + 1, s@(c :: rest) =>
    if !pat.isEmpty && startsWithList pat s then
      repl ++ replaceAllAux pat repl fuel (s.drop pat.length)
    else
      c :: replaceAllAux pat repl fuel rest

/-- JavaScript `s.replace(/lit/g, repl)` for a literal pattern `lit`. -/
def replaceAllLit (pat repl s : String) : String :=
  ⟨replaceAllAux pat.data repl.data s.data.length s.data⟩

/-- Global case-insensitive replacement of an alternation of literal patterns
(the JavaScript `s.replace(/p1|p2|.../gi, repl)`): at each position the
alternatives are tried in order. -/
def replaceAltCIAux (pats : List (List Char)) (repl : List Char) :
    Nat → List Char → List Char
  | _, [] => []
  | 0, s => s
  | fuel + 1, s@(c :: rest) =>
    match pats.find? (fun p => !p.isEmpty && startsWithListCI p s) with
    | some p => repl ++ replaceAltCIAux pats repl fuel (s.drop p.length)
    | none => c :: replaceAltCIAux pats repl fuel rest

/-- Wrapper for `replaceAltCIAux` on strings. -/
def replaceAltCI (pats : List String) (repl s : String) : String :=
  ⟨replaceAltCIAux (pats.map String.data) repl.data s.data.length s.data⟩

/-- Remove every character satisfying the predicate (JavaScript
`s.replace(/[class]/g, "")` for a character class). -/
def removeChars (p : Char → Bool) (s : String) : String :=
  ⟨s.data.filter fun c => !p c⟩

/-- Replace every character satisfying the predicate by another character
(JavaScript `s.replace(/[class]/g, "c")`). -/
def mapCharsTo (p : Char → Bool) (r : Char) (s : String) : String :=
  ⟨s.data.map fun c => if p c then r else c⟩

/-- Collapse every maximal run of `\s` characters to a single ASCII space
(JavaScript `s.replace(/\s+/g, " ")`). -/
def collapseWsAux : Nat → List Char → List Char
  | _, [] => []
  | 0, s => s
  | fuel + 1, s@(c :: rest) =>
    if jsWs c then ' ' :: collapseWsAux fuel (s.dropWhile jsWs)
    else c :: collapseWsAux fuel rest

/-- Wrapper for `collapseWsAux`. -/
def collapseWs (s : String) : String :=
  ⟨collapseWsAux s.data.length s.data⟩

/-- Remove every whitespace character (JavaScript `s.replace(/\s+/g, "")`). -/
def removeWs (s : String) : String :=
  removeChars jsWs s

/-- Lazy case-insensitive block removal: the JavaScript
`s.replace(/open[\s\S]*?close/gi, "")` for literal `open` and `close` — each
match runs from an occurrence of `open` to the nearest later occurrence of
`close`. -/
def removeLazyBlockCIAux (openPat closePat : List Char) : Nat → List Char → List Char
  | _, [] => []
  | 0, s => s
  | fuel + 1, s@(c :: rest) =>
    if !openPat.isEmpty && startsWithListCI openPat s then
      match findSubAuxCI closePat (s.drop openPat.length) 0 with
      | some j =>
        removeLazyBlockCIAux openPat closePat fuel
          (s.drop (openPat.length + j + closePat.length))
      | none => c :: removeLazyBlockCIAux openPat closePat fuel rest
    else c :: removeLazyBlockCIAux openPat closePat fuel rest

/-- Wrapper for `removeLazyBlockCIAux`. -/
def removeLazyBlockCI (openPat closePat s : String) : String :=
  ⟨removeLazyBlockCIAux openPat.data closePat.data s.data.length s.data⟩

/-- The JavaScript `s.replace(/lit\s*/g, "")`: remove each occurrence of the
literal together with the whitespace run following it. -/
def removeLitThenWsAux (pat : List Char) : Nat → List Char → List Char
  | _, [] => []
  | 0, s => s
  | fuel + 1, s@(c :: rest) =>
    if !pat.isEmpty && startsWithList pat s then
      removeLitThenWsAux pat fuel ((s.drop pat.length).dropWhile jsWs)
    else c :: removeLitThenWsAux pat fuel rest

/-- Wrapper for `removeLitThenWsAux`. -/
def removeLitThenWs (pat s : String) : String :=
  ⟨removeLitThenWsAux pat.data s.data.length s.data⟩

/-- The JavaScript `s.replace(/open([cls]*?)close/g, pre + "$1" + post)` for
literal `open`/`close` and a character class `cls`: the (lazy) body is the
shortest run of class characters after which `close` matches. -/
def classSpanBody (closePat : List Char) (cls : Char → Bool) :
    List Char → List Char → Nat → Option (List Char × List Char)
  | t, acc, bodyFuel =>
    if startsWithList closePat t then some (acc.reverse, t.drop closePat.length)
    else match bodyFuel, t with
      | bodyFuel' + 1, c' :: t' =>
        if cls c' then classSpanBody closePat cls t' (c' :: acc) bodyFuel' else none
      | _, _ => none

/-- See `classSpanBody`: the (lazy) body is the shortest run of class
characters after which `close` matches. -/
def replaceClassSpanAux (openPat closePat : List Char) (cls : Char → Bool)
    (pre post : List Char) : Nat → List Char → List Char
  | _, [] => []
  | 0, s => s
  | fuel + 1, s@(c :: rest) =>
    if !openPat.isEmpty && startsWithList openPat s then
      match classSpanBody closePat cls (s.drop openPat.length) []
          (s.drop openPat.length).length with
      | some (body, after) =>
        pre ++ body ++ post ++ replaceClassSpanAux openPat closePat cls pre post fuel after
      | none => c :: replaceClassSpanAux openPat closePat cls pre post fuel rest
    else c :: replaceClassSpanAux openPat closePat cls pre post fuel rest

/-- Wrapper for `replaceClassSpanAux`. -/
def replaceClassSpan (openPat closePat : String) (cls : Char → Bool)
    (pre post s : String) : String :=
  ⟨replaceClassSpanAux openPat.data closePat.data cls pre.data post.data s.data.length s.data⟩

/-- The JavaScript `s.replace(/open([\s\S]*?)close/g, pre + "$1" + post)` for
literal `open` and `close`: each match runs from an occurrence of `open` to
the nearest later occurrence of `close` (lazy body). -/
def replaceLazySpanAux (openPat closePat pre post : List Char) : Nat → List Char → List Char
  | _, [] => []
  | 0, s => s
  | fuel + 1, s@(c :: rest) =>
    if !openPat.isEmpty && startsWithList openPat s then
      match findSubAux closePat (s.drop openPat.length) 0 with
      | some j =>
        pre ++ (s.drop openPat.length).take j ++ post ++
          replaceLazySpanAux openPat closePat pre post fuel
            (s.drop (openPat.length + j + closePat.length))
      | none => c :: replaceLazySpanAux openPat closePat pre post fuel rest
    else c :: replaceLazySpanAux openPat closePat pre post fuel rest

/-- Wrapper for `replaceLazySpanAux`. -/
def replaceLazySpan (openPat closePat pre post s : String) : String :=
  ⟨replaceLazySpanAux openPat.data closePat.data pre.data post.data s.data.length s.data⟩

/-- The JavaScript `s.replace(/open[^\x7d]*\x7d/g, repl)` for a literal
`open`: the match extends to the first closing curly brace. -/
def replaceUpToCloseBraceAux (openPat repl : List Char) : Nat → List Char → List Char
  | _, [] => []
  | 0, s => s
  | fuel + 1, s@(c :: rest) =>
    if !openPat.isEmpty && startsWithList openPat s then
      match findSubAux [Char.ofNat 0x7D] (s.drop openPat.length) 0 with
      | some j =>
        repl ++ replaceUpToCloseBraceAux openPat repl fuel (s.drop (openPat.length + j + 1))
      | none => c :: replaceUpToCloseBraceAux openPat repl fuel rest
    else c :: replaceUpToCloseBraceAux openPat repl fuel rest

/-- Wrapper for `replaceUpToCloseBraceAux`. -/
def replaceUpToCloseBrace (openPat repl s : String) : String :=
  ⟨replaceUpToCloseBraceAux openPat.data repl.data s.data.length s.data⟩

/-! ### The LaTeX normalizer (source: `normalizeDocxLatex`, route.ts 220-275)

Each `.replace` of the source chain is rendered by one of the specialised
rewriters above, in the same order.  The seven environment rewrites use
`String.raw` replacement templates in the source, so the replacement text
contains two backslash characters before each command (`\\left[...`), which
`String.prototype.replace` copies verbatim (backslash is not an escape
character in a replacement string). -/

/-- Source: `stripLeftRight` (route.ts 217-218). -/
def stripLeftRight (tex : String) : String :=
  tex |> replaceAllLit "\\left" "" |> replaceAllLit "\\right" ""

/-- Character class `[\\sS]` of the (miswritten) source regex
`/\\left\\\{([\\s\\S]*?)\\right\\\./g`, whose doubled backslashes make the
body class literal: backslash, lower-case s, upper-case S. -/
def bsSS (c : Char) : Bool :=
  c == '\\' || c == 's' || c == 'S'

/-- Source: `normalizeDocxLatex` (route.ts 220-275), regex by regex. -/
def normalizeDocxLatex (tex : String) : String :=
  tex
  |> removeLitThenWs "\\displaystyle"
  |> replaceClassSpan "\\left\\\x7b" "\\right\\." bsSS "\\left\\\x7b" "\\right\\\x7d"
  |> replaceAllLit "\\bigl" "\\left"
  |> replaceAllLit "\\bigr" "\\right"
  |> replaceAllLit "\\Bigl" "\\left"
  |> replaceAllLit "\\Bigr" "\\right"
  |> replaceAllLit "\\biggl" "\\left"
  |> replaceAllLit "\\biggr" "\\right"
  |> replaceAllLit "\\Biggl" "\\left"
  |> replaceAllLit "\\Biggr" "\\right"
  |> replaceAllLit "\\left\\langle" "\\langle"
  |> replaceAllLit "\\right\\rangle" "\\rangle"
  |> replaceAllLit "\\left\\lvert" "\\lvert"
  |> replaceAllLit "\\right\\rvert" "\\rvert"
  |> replaceAllLit "\\left\\lVert" "\\lVert"
  |> replaceAllLit "\\right\\rVert" "\\rVert"
  |> replaceAllLit "\\exp\\!" "\\exp"
  |> replaceAllLit "\\!" ""
  |> replaceAllLit "\\quad" " "
  |> replaceAllLit "\\qquad" " "
  |> replaceAllLit "\\," " "
  |> replaceAllLit "\\;" " "
  |> replaceAllLit "\\begin\x7baligned\x7d" "\\begin\x7barray\x7d\x7bll\x7d"
  |> replaceAllLit "\\end\x7baligned\x7d" "\\end\x7barray\x7d"
  |> replaceUpToCloseBrace "\\begin\x7balignedat\x7d\x7b" "\\begin\x7barray\x7d\x7bll\x7d"
  |> replaceAllLit "\\end\x7balignedat\x7d" "\\end\x7barray\x7d"
  |> replaceLazySpan "\\begin\x7bbmatrix\x7d" "\\end\x7bbmatrix\x7d"
      "\\\\left[\\\\begin\x7bmatrix\x7d" "\\\\end\x7bmatrix\x7d\\\\right]"
  |> replaceLazySpan "\\begin\x7bpmatrix\x7d" "\\end\x7bpmatrix\x7d"
      "\\\\left(\\\\begin\x7bmatrix\x7d" "\\\\end\x7bmatrix\x7d\\\\right)"
  |> replaceLazySpan "\\begin\x7bBmatrix\x7d" "\\end\x7bBmatrix\x7d"
      "\\\\left\\\\\x7b\\\\begin\x7bmatrix\x7d" "\\\\end\x7bmatrix\x7d\\\\right\\\\\x7d"
  |> replaceLazySpan "\\begin\x7bvmatrix\x7d" "\\end\x7bvmatrix\x7d"
      "\\\\left|\\\\begin\x7bmatrix\x7d" "\\\\end\x7bmatrix\x7d\\\\right|"
  |> replaceLazySpan "\\begin\x7bVmatrix\x7d" "\\end\x7bVmatrix\x7d"
      "\\\\left\\\\|\\\\begin\x7bmatrix\x7d" "\\\\end\x7bmatrix\x7d\\\\right\\\\|"
  |> replaceLazySpan "\\begin\x7bcases\x7d" "\\end\x7bcases\x7d"
      "\\\\left\\\\\x7b\\\\begin\x7barray\x7d\x7bll\x7d" "\\\\end\x7barray\x7d\\\\right."
  |> replaceLazySpan "\\begin\x7bsmallmatrix\x7d" "\\end\x7bsmallmatrix\x7d"
      "\\\\left(\\\\begin\x7bsmallmatrix\x7d" "\\\\end\x7bsmallmatrix\x7d\\\\right)"

/-! ### The XML fragment tree

`XNode` models the DOM nodes manipulated by the OMML repair passes: element
nodes carry their qualified tag name, namespace URI, attribute list (in
document order; `setAttribute` overwrites in place) and child list; text nodes
carry their data.  Only element (`nodeType === 1`) and text nodes occur in the
fragments the source handles. -/

inductive XNode where
  | elem (tag : String) (ns : Option String) (attrs : List (String × String))
      (children : List XNode)
  | text (s : String)

/-- The OMML namespace (source constant `M_NS`, route.ts 39). -/
def M_NS : String := "http://schemas.openxmlformats.org/officeDocument/2006/math"

/-- Element created by `doc.createElementNS(M_NS, tag)` with the given
attributes already set (in insertion order) and children appended. -/
def mkM (tag : String) (attrs : List (String × String)) (children : List XNode) : XNode :=
  XNode.elem tag (some M_NS) attrs children

/-- Is the node an element (`nodeType === 1`)? -/
def isElem : XNode → Bool
  | .elem .. => true
  | .text _ => false

/-- The `tagName` of an element (unused for text nodes). -/
def tagOf : XNode → String
  | .elem t .. => t
  | .text _ => ""

/-- The child list of a node. -/
def childrenOf : XNode → List XNode
  | .elem _ _ _ cs => cs
  | .text _ => []

/-- The attribute list of a node. -/
def attrsOf : XNode → List (String × String)
  | .elem _ _ a _ => a
  | .text _ => []

/-- Source: `tagLocal` (route.ts 279): the segment after the first colon
(JavaScript `name.split(":")[1]`), or the whole name when there is none. -/
def tagLocal (name : String) : String :=
  if name.data.any (· == ':') then
    ⟨((name.data.dropWhile (· != ':')).drop 1).takeWhile (· != ':')⟩
  else name

/-- Source: `isM` (route.ts 280): the element's local tag name equals the
given one.  Text nodes never match. -/
def isM (n : XNode) (loc : String) : Bool :=
  isElem n && tagLocal (tagOf n) == loc

/-- `getAttribute`: the value of the first attribute with the given qualified
name, or `none`. -/
def getAttr (n : XNode) (k : String) : Option String :=
  ((attrsOf n).find? fun p => p.1 == k).map Prod.snd

/-- `setAttribute` on an attribute list: overwrite the first binding of the
name, or append a new one. -/
def setAttr (k v : String) : List (String × String) → List (String × String)
  | [] => [(k, v)]
  | (k', v') :: rest => if k' == k then (k, v) :: rest else (k', v') :: setAttr k v rest

mutual

/-- `textContent`: the concatenation of all descendant text data. -/
def textContent : XNode → String
  | .text s => s
  | .elem _ _ _ cs => textContentList cs

/-- `textContent` of a node list. -/
def textContentList : List XNode → String
  | [] => ""
  | x :: xs => textContent x ++ textContentList xs

end

/-- The first element child with the given local tag name. -/
def firstElemChildWithLocal (n : XNode) (loc : String) : Option XNode :=
  (childrenOf n).find? fun c => isElem c && isM c loc

/-- Replace the first element child with the given local name by `f` of it
(models in-place mutation of that child). -/
def replaceFirstElemWithLocal (loc : String) (f : XNode → XNode) :
    List XNode → List XNode
  | [] => []
  | x :: xs =>
    if isElem x && isM x loc then f x :: xs
    else x :: replaceFirstElemWithLocal loc f xs

/-- `el.getAttribute("m:val") ?? el.getAttribute("val") ?? ""` (the recurring
attribute lookup of the repair passes). -/
def getValAttr (n : XNode) : String :=
  ((getAttr n "m:val").orElse fun _ => getAttr n "val").getD ""

/-- Number of element children of a node list. -/
def countElems (l : List XNode) : Nat :=
  (l.filter isElem).length

/-- Split a node list at its first element node: the (all-text) prefix, the
element, and the remainder (models `nextElementIndex` scans). -/
def splitToNextElem : List XNode → Option (List XNode × XNode × List XNode)
  | [] => none
  | .text s :: xs => (splitToNextElem xs).map fun p => (.text s :: p.1, p.2.1, p.2.2)
  | x@(.elem ..) :: xs => some ([], x, xs)

/-- Source: `runTextIfSingleChar` (route.ts 437-457): for an `m:r` run whose
first `m:t` element child has trimmed text of exactly one code point, that
code point. -/
def runTextIfSingleChar (run : XNode) : Option Char :=
  if !isM run "r" then none
  else match firstElemChildWithLocal run "t" with
    | none => none
    | some tEl =>
      match (jsTrim (textContent tEl)).data with
      | [c] => some c
      | _ => none

/-- Source: `isTall` (route.ts 459-477). -/
def isTall (n : XNode) : Bool :=
  ["m", "eqArr", "f", "rad", "nary", "stack", "limLow", "limUpp", "box", "bar",
   "groupChr", "sSub", "sSup", "sSubSup"].contains (tagLocal (tagOf n))

/-- Source: `getRunText` (route.ts 1050-1053). -/
def getRunText (run : XNode) : String :=
  if !isM run "r" then "" else jsTrim (textContent run)

/-- Source: `makeRunWithText` (route.ts 1055-1063; also the local `makeRun`
helpers of `fixRunIntegrals` and `fixNormSupSubRuns`, which build the same
node): an `m:r` holding an `m:t` with `xml:space="preserve"` and the text. -/
def makeRunWithText (value : String) : XNode :=
  mkM "m:r" [] [mkM "m:t" [("xml:space", "preserve")] [XNode.text value]]

/-- Source: `isNaryWithChr` (route.ts 1065-1083): an `m:nary` whose first
`m:naryPr` has a first `m:chr` child with the given value. -/
def isNaryWithChr (node : XNode) (chr : String) : Bool :=
  if !isM node "nary" then false
  else match firstElemChildWithLocal node "naryPr" with
    | none => false
    | some naryPr =>
      match firstElemChildWithLocal naryPr "chr" with
      | none => false
      | some c => getValAttr c == chr

/-! ### Repair pass: non-math element stripping
(source: `removeNonMathElements`, route.ts 356-377) -/

/-- The prefixes of the `/^(w|r|wp|w14|w15|w16|o|v|mc):/` tag test. -/
def nonMathPrefixes : List String :=
  ["w:", "r:", "wp:", "w14:", "w15:", "w16:", "o:", "v:", "mc:"]

/-- Is the element to be removed?  The synthetic wrapper `root` is kept; a tag
with a word-processing prefix is removed; an `m:` tag is kept; otherwise the
element is removed exactly when it has a namespace other than the OMML one. -/
def isNonMathElement (tag : String) (ns : Option String) : Bool :=
  if tag == "root" then false
  else if nonMathPrefixes.any (fun p => startsWithList p.data tag.data) then true
  else if startsWithList "m:".data tag.data then false
  else match ns with
    | some u => u != M_NS
    | none => false

mutual

/-- Source: `removeNonMathElements`: drop every marked element together with
its subtree (removing a marked ancestor in the source detaches its marked
descendants, so one recursive sweep gives the same tree). -/
def removeNonMathElements : XNode → XNode
  | .text s => .text s
  | .elem tag ns attrs cs => .elem tag ns attrs (removeNonMathList cs)

/-- Child-list sweep of `removeNonMathElements`. -/
def removeNonMathList : List XNode → List XNode
  | [] => []
  | .text s :: xs => .text s :: removeNonMathList xs
  | .elem tag ns attrs cs :: xs =>
    if isNonMathElement tag ns then removeNonMathList xs
    else removeNonMathElements (.elem tag ns attrs cs) :: removeNonMathList xs

end

/-! ### Repair pass: invalid script repair
(source: `repairInvalidScripts`, route.ts 379-435) -/

/-- Local names of the script constructs. -/
def isScriptLocal (loc : String) : Bool :=
  loc == "sSub" || loc == "sSup" || loc == "sSubSup"

/-- Does the node have an element child with the given local name? -/
def hasElemChildLocal (n : XNode) (loc : String) : Bool :=
  (childrenOf n).any fun c => isElem c && isM c loc

/-- The dispatch of route.ts 410-433: is this script construct invalid (to be
unwrapped)?  A non-script node is never invalid. -/
def scriptInvalid (n : XNode) : Bool :=
  let loc := tagLocal (tagOf n)
  if !(isElem n && isScriptLocal loc) then false
  else
    let hasE := hasElemChildLocal n "e"
    let hasSub := hasElemChildLocal n "sub"
    let hasSup := hasElemChildLocal n "sup"
    if !hasE then true
    else if loc == "sSub" then !hasSub
    else if loc == "sSup" then !hasSup
    else !hasSub || !hasSup

mutual

/-- One collected-node step of `repairInvalidScripts`: an invalid script is
replaced by the (recursively repaired) children of its first `m:e` child, or
by nothing when it has no `m:e` child (`unwrapToBase`, route.ts 380-401);
every other node is kept with its children repaired.  The source collects all
script nodes up front and unwraps them in document order; since each unwrap
only splices a node's base content into its parent, that equals this one
pre-order sweep. -/
def repairScriptsNode : XNode → List XNode
  | .text s => [.text s]
  | n@(.elem tag ns attrs cs) =>
    if scriptInvalid n then repairScriptsBase cs
    else [.elem tag ns attrs (repairScriptsList cs)]

/-- Find the first `m:e` element child and return its repaired children
(`unwrapToBase`); nothing when there is none. -/
def repairScriptsBase : List XNode → List XNode
  | [] => []
  | .text _ :: xs => repairScriptsBase xs
  | x@(.elem _ _ _ kids) :: xs =>
    if isM x "e" then repairScriptsList kids else repairScriptsBase xs

/-- Child-list sweep of one `repairInvalidScripts` pass. -/
def repairScriptsList : List XNode → List XNode
  | [] => []
  | x :: xs => repairScriptsNode x ++ repairScriptsList xs

end

/-- Source: `repairInvalidScripts` runs two passes (`for pass in 0..2`). -/
def repairInvalidScripts (root : XNode) : XNode :=
  let once : XNode → XNode := fun n =>
    match n with
    | .text s => .text s
    | .elem tag ns attrs cs => .elem tag ns attrs (repairScriptsList cs)
  once (once root)

/-! ### Repair pass: limit placement
(source: `forceIntegralLimitsUnderOver`, route.ts 996-1049) -/

/-- The integral-family glyphs of the source set: U+222B (integral), U+222E
(contour integral), U+222F (surface integral), U+2230 (volume integral). -/
def integralLimGlyphs : List String :=
  [⟨[Char.ofNat 0x222B]⟩, ⟨[Char.ofNat 0x222E]⟩, ⟨[Char.ofNat 0x222F]⟩, ⟨[Char.ofNat 0x2230]⟩]

/-- The `m:chr` operator value of an `m:nary` (route.ts 1018-1028):
`chrEl?.getAttribute("m:val") ?? chrEl?.getAttribute("val") ?? ""` for the
first `m:chr` of the first `m:naryPr`. -/
def naryChrVal (n : XNode) : String :=
  match firstElemChildWithLocal n "naryPr" with
  | none => ""
  | some naryPr =>
    match firstElemChildWithLocal naryPr "chr" with
    | none => ""
    | some c => getValAttr c

/-- `limLoc.setAttribute("m:val", "undOvr")`. -/
def setLimLocUndOvr (l : XNode) : XNode :=
  match l with
  | .text s => .text s
  | .elem lt ln la lc => .elem lt ln (setAttr "m:val" "undOvr" la) lc

/-- The `m:naryPr` surgery of route.ts 1031-1047: overwrite the first
`m:limLoc` child with `m:val="undOvr"`, appending a fresh `m:limLoc` when
there is none. -/
def fixNaryPrLimLoc (pr : XNode) : XNode :=
  match pr with
  | .text s => .text s
  | .elem ptag pns pattrs pcs =>
    if hasElemChildLocal (XNode.elem ptag pns pattrs pcs) "limLoc" then
      XNode.elem ptag pns pattrs (replaceFirstElemWithLocal "limLoc" setLimLocUndOvr pcs)
    else
      XNode.elem ptag pns pattrs (pcs ++ [mkM "m:limLoc" [("m:val", "undOvr")] []])

/-- The per-`m:nary` surgery of `forceIntegralLimitsUnderOver`: when the first
`m:naryPr` exists and its first `m:chr` value is one of the recognised glyphs,
set `m:val="undOvr"` on the first `m:limLoc` of that `naryPr`, appending a
fresh `m:limLoc` when there is none. -/
def forceNaryLimUndOvr (n : XNode) : XNode :=
  match n with
  | .text s => .text s
  | .elem tag ns attrs cs =>
    match firstElemChildWithLocal (XNode.elem tag ns attrs cs) "naryPr" with
    | none => XNode.elem tag ns attrs cs
    | some _ =>
      if !integralLimGlyphs.contains (naryChrVal (XNode.elem tag ns attrs cs)) then
        XNode.elem tag ns attrs cs
      else
        XNode.elem tag ns attrs (replaceFirstElemWithLocal "naryPr" fixNaryPrLimLoc cs)

mutual

/-- Source: `forceIntegralLimitsUnderOver`: apply the `m:nary` surgery at
every `m:nary` of the tree.  The surgery at a node and the recursion into its
children act on disjoint data (the surgery only touches the first `naryPr`
child's `limLoc`, which the recursion never rewrites), so the recurse-first
order used here equals the source's pre-order traversal. -/
def forceIntegralLimitsUnderOver : XNode → XNode
  | .text s => .text s
  | .elem tag ns attrs cs =>
    let n' := XNode.elem tag ns attrs (forceIntegralList cs)
    if isM n' "nary" then forceNaryLimUndOvr n' else n'

/-- Child-list sweep of `forceIntegralLimitsUnderOver`. -/
def forceIntegralList : List XNode → List XNode
  | [] => []
  | x :: xs => forceIntegralLimitsUnderOver x :: forceIntegralList xs

end

/-! ### Repair pass: undefined-style cleanup
(source: `removeUndefinedStyle`, route.ts 1188-1200) -/

mutual

/-- Source: `removeUndefinedStyle`: drop every `m:sty` element whose value
attribute is the literal string "undefined". -/
def removeUndefinedStyle : XNode → XNode
  | .text s => .text s
  | .elem tag ns attrs cs => .elem tag ns attrs (removeUndefinedStyleList cs)

/-- Child-list sweep of `removeUndefinedStyle`. -/
def removeUndefinedStyleList : List XNode → List XNode
  | [] => []
  | x :: xs =>
    if isM x "sty" && getValAttr x == "undefined" then removeUndefinedStyleList xs
    else removeUndefinedStyle x :: removeUndefinedStyleList xs

end

/-! ### Repair pass: text-node normalization
(source: `normalizeOmmlTextNodesDom`, route.ts 333-354) -/

/-- Zero-width and joiner characters stripped from `m:t` text
(`[​‌‍﻿­⁠-⁤]`). -/
def isZeroWidthT (c : Char) : Bool :=
  c.toNat == 0x200B || c.toNat == 0x200C || c.toNat == 0x200D || c.toNat == 0xFEFF ||
  c.toNat == 0xAD || (0x2060 ≤ c.toNat && c.toNat ≤ 0x2064)

/-- Control characters stripped from `m:t` text
(`[\u0000-\u0008\u000B\u000C\u000E-\u001F\u007F]`). -/
def isControlT (c : Char) : Bool :=
  c.toNat ≤ 0x08 || c.toNat == 0x0B || c.toNat == 0x0C ||
  (0x0E ≤ c.toNat && c.toNat ≤ 0x1F) || c.toNat == 0x7F

/-- The JavaScript `t.replace(/<\/?m:[^>]+>/g, "")`: remove every textual
scrap of an OMML tag (an optional slash after `<`, the prefix `m:`, at least
one non-`>` character, then `>`). -/
def removeMTagScrapsAux : Nat → List Char → List Char
  | _, [] => []
  | 0, s => s
  | fuel + 1, s@(c :: rest) =>
    let tryAt : List Char → Option (List Char) := fun t =>
      if startsWithList "m:".data t then
        match findSubAux ['>'] (t.drop 2) 0 with
        | some j => if 2 + j ≥ 3 then some (t.drop (2 + j + 1)) else none
        | none => none
      else none
    if c == '<' then
      match tryAt rest with
      | some after => removeMTagScrapsAux fuel after
      | none =>
        match rest with
        | '/' :: rest2 =>
          match tryAt rest2 with
          | some after => removeMTagScrapsAux fuel after
          | none => c :: removeMTagScrapsAux fuel rest
        | _ => c :: removeMTagScrapsAux fuel rest
    else c :: removeMTagScrapsAux fuel rest

/-- Wrapper for `removeMTagScrapsAux`. -/
def removeMTagScraps (s : String) : String :=
  ⟨removeMTagScrapsAux s.data.length s.data⟩

/-- Is the first character whitespace? -/
def headIsWs : List Char → Bool
  | [] => false
  | c :: _ => jsWs c

/-- Does the list contain two adjacent ASCII spaces? -/
def hasDoubledSpace : List Char → Bool
  | c1 :: c2 :: rest => (c1 == ' ' && c2 == ' ') || hasDoubledSpace (c2 :: rest)
  | _ => false

/-- The `/^\s|\s$| {2,}/` test of route.ts 346: leading or trailing
whitespace, or a doubled ASCII space. -/
def needsSpacePreserve (s : String) : Bool :=
  headIsWs s.data || headIsWs s.data.reverse || hasDoubledSpace s.data

/-- `String.fromCharCode(0x222B)`: the integral glyph. -/
def intStr : String := ⟨[Char.ofNat 0x222B]⟩

/-- `String.fromCharCode(0x221E)`: the infinity glyph. -/
def infStr : String := ⟨[Char.ofNat 0x221E]⟩

/-- `String.fromCharCode(0x2211)`: the summation glyph. -/
def sumStr : String := ⟨[Char.ofNat 0x2211]⟩

/-- U+2225, the double-bar (norm) glyph. -/
def dblBarChar : Char := Char.ofNat 0x2225

/-- The `/^\d+$/` test: nonempty and all ASCII digits. -/
def allDigits (s : String) : Bool :=
  !s.data.isEmpty && s.data.all fun c => '0' ≤ c && c ≤ '9'

/-- The text rewriting chain of `normalizeOmmlTextNodesDom` applied to one
`m:t` text value. -/
def normalizeTText (t : String) : String :=
  t
  |> replaceAltCI ["&nbsp;", "&#160;", "&#xA0;"] " "
  |> replaceAltCI ["&thinsp;", "&ensp;", "&emsp;"] " "
  |> mapCharsTo (fun c => c.toNat == 0xA0 || c.toNat == 0x202F) ' '
  |> removeChars isZeroWidthT
  |> removeChars isControlT
  |> removeMTagScraps

mutual

/-- Source: `normalizeOmmlTextNodesDom`: rewrite the `textContent` of every
`m:t` leaf (the setter replaces the whole child list, so nested markup under
an `m:t` is flattened and never itself visited) and flag `xml:space` when
significant spacing survives. -/
def normalizeOmmlTextNodesDom : XNode → XNode
  | .text s => .text s
  | n@(.elem tag ns attrs cs) =>
    if isM n "t" then
      let t := normalizeTText (textContent n)
      let attrs' :=
        if needsSpacePreserve t then
          match getAttr n "xml:space" with
          | none => setAttr "xml:space" "preserve" attrs
          | some "" => setAttr "xml:space" "preserve" attrs
          | some _ => attrs
        else attrs
      .elem tag ns attrs' (if t.isEmpty then [] else [.text t])
    else .elem tag ns attrs (normalizeOmmlTextList cs)

/-- Child-list sweep of `normalizeOmmlTextNodesDom`. -/
def normalizeOmmlTextList : List XNode → List XNode
  | [] => []
  | x :: xs => normalizeOmmlTextNodesDom x :: normalizeOmmlTextList xs

end

/-! ### Repair pass: integral run reconstruction
(source: `fixRunIntegrals`, route.ts 848-957) -/

/-- The `m:nary` node built by `fixRunIntegrals` (route.ts 914-943): property
list with integral `m:chr`, `m:limLoc="undOvr"`, `m:grow="1"`,
`m:subHide="off"`, `m:supHide="off"`; then `m:sub` and `m:sup` holding the
recognised bound runs (empty slots when a bound is absent) and an empty
`m:e`. -/
def mkIntegralNary (sub sup : Option String) : XNode :=
  mkM "m:nary" []
    [mkM "m:naryPr" []
      [mkM "m:chr" [("m:val", intStr)] [],
       mkM "m:limLoc" [("m:val", "undOvr")] [],
       mkM "m:grow" [("m:val", "1")] [],
       mkM "m:subHide" [("m:val", "off")] [],
       mkM "m:supHide" [("m:val", "off")] []],
     mkM "m:sub" [] (match sub with | some v => [makeRunWithText v] | none => []),
     mkM "m:sup" [] (match sup with | some v => [makeRunWithText v] | none => []),
     mkM "m:e" [] []]

/-- The child-list scan of `fixRunIntegrals` (route.ts 864-955): a run whose
trimmed text is the integral glyph (optionally with an attached digit bound)
collapses, together with an immediately following lower-bound digit run and/or
infinity run, into one fresh n-ary construct; scanning resumes after the
construct.  The fuel bounds the number of scan steps; every step drops at
least one node, so the wrapper's fuel (the list length) reaches the end. -/
def fixIntegralScanAux : Nat → List XNode → List XNode
  | _, [] => []
  | 0, l => l
  | fuel + 1, x :: rest =>
    if !(isElem x && isM x "r") then x :: fixIntegralScanAux fuel rest
    else
      let txt := jsTrim (textContent x)
      let integralOnly := txt == intStr
      let integralWithSub := startsWithList intStr.data txt.data && txt.data.length > 1
      if !integralOnly && !integralWithSub then x :: fixIntegralScanAux fuel rest
      else
        let sub0 : Option String :=
          if integralWithSub then
            let restTxt := jsTrim ⟨txt.data.drop 1⟩
            if allDigits restTxt then some restTxt else none
          else none
        match rest with
        | [] => [mkIntegralNary sub0 none]
        | n1 :: rest1 =>
          let nextText := if isElem n1 then jsTrim (textContent n1) else ""
          if nextText == infStr then
            mkIntegralNary sub0 (some infStr) :: fixIntegralScanAux fuel rest1
          else if integralOnly && allDigits nextText then
            match rest1 with
            | [] => [mkIntegralNary (some nextText) none]
            | n2 :: rest2 =>
              let next2Text := if isElem n2 then jsTrim (textContent n2) else ""
              if next2Text == infStr then
                mkIntegralNary (some nextText) (some infStr) :: fixIntegralScanAux fuel rest2
              else
                mkIntegralNary (some nextText) none :: fixIntegralScanAux fuel (n2 :: rest2)
          else
            mkIntegralNary sub0 none :: fixIntegralScanAux fuel rest

/-- Wrapper for `fixIntegralScanAux`. -/
def fixIntegralScan (l : List XNode) : List XNode :=
  fixIntegralScanAux l.length l

mutual

/-- Source: `fixRunIntegrals`: run the integral scan over the direct children
of every element except `m:nary` and `m:t` containers.  The scan conditions
depend only on run texts, which the recursion into children preserves, so the
recurse-first order used here equals the source's pre-order traversal. -/
def fixRunIntegrals : XNode → XNode
  | .text s => .text s
  | n@(.elem tag ns attrs cs) =>
    let cs' := fixRunIntegralsList cs
    if isM n "nary" || isM n "t" then .elem tag ns attrs cs'
    else .elem tag ns attrs (fixIntegralScan cs')

/-- Child-list sweep of `fixRunIntegrals`. -/
def fixRunIntegralsList : List XNode → List XNode
  | [] => []
  | x :: xs => fixRunIntegrals x :: fixRunIntegralsList xs

end

/-! ### Repair pass: norm-subscript repair
(source: `fixNormSupSubRuns`, route.ts 755-845) -/

/-- ASCII digit test (regex class `[0-9]`). -/
def isAsciiDigit (c : Char) : Bool :=
  '0' ≤ c && c ≤ '9'

/-- Characters the JavaScript dot does not match (`.` without the `s` flag). -/
def isNlChar (c : Char) : Bool :=
  c == '\n' || c == '\r' || c.toNat == 0x2028 || c.toNat == 0x2029

/-- Does the list start with an ASCII digit? -/
def headIsDigit : List Char → Bool
  | [] => false
  | c :: _ => isAsciiDigit c

/-- Split into the segments separated by line terminators. -/
def splitNlAux (acc : List Char) : List Char → List (List Char)
  | [] => [acc.reverse]
  | c :: rest =>
    if isNlChar c then acc.reverse :: splitNlAux [] rest
    else splitNlAux (c :: acc) rest

/-- Within one newline-free segment, the split of the greedy match
`(.*)∥([0-9]+)(.*)`: the prefix up to the last double-bar glyph followed
by a digit, the maximal digit run, and the remainder. -/
def normSplitLineAux (acc : List Char) : List Char → Option (List Char × List Char × List Char)
  | [] => none
  | c :: rest =>
    match normSplitLineAux (c :: acc) rest with
    | some r => some r
    | none =>
      if c == dblBarChar && headIsDigit rest then
        some (acc.reverse, rest.takeWhile isAsciiDigit, rest.dropWhile isAsciiDigit)
      else none

/-- The match of `/(.*)∥([0-9]+)(.*)/` against the text: since the dot
does not cross line terminators, the first segment containing a double-bar
glyph followed by a digit yields the match (greedy prefix within it). -/
def normMatch (s : String) : Option (String × String × String) :=
  go (splitNlAux [] s.data)
where
  go : List (List Char) → Option (String × String × String)
    | [] => none
    | line :: lines =>
      match normSplitLineAux [] line with
      | some (p, d, suf) => some (⟨p⟩, ⟨d⟩, ⟨suf⟩)
      | none => go lines

/-- The replacement nodes of `fixNormSupSubRuns` (route.ts 795-837): optional
prefix run, then a sub(-sup) construct over the double-bar glyph (digit runs
of length at least two split into a one-digit subscript and the remaining
superscript), then an optional suffix run. -/
def normReplacementNodes (pfx digits suffix : String) : List XNode :=
  (if pfx.isEmpty then [] else [makeRunWithText pfx]) ++
  (if digits.data.length ≥ 2 then
    [mkM "m:sSubSup" []
      [mkM "m:sSubSupPr" [] [],
       mkM "m:e" [] [makeRunWithText ⟨[dblBarChar]⟩],
       mkM "m:sub" [] [makeRunWithText ⟨digits.data.take 1⟩],
       mkM "m:sup" [] [makeRunWithText ⟨digits.data.drop 1⟩]]]
  else
    [mkM "m:sSub" []
      [mkM "m:sSubPr" [] [],
       mkM "m:e" [] [makeRunWithText ⟨[dblBarChar]⟩],
       mkM "m:sub" [] [makeRunWithText digits]]]) ++
  (if suffix.isEmpty then [] else [makeRunWithText suffix])

/-- The per-run rewrite of `fixNormSupSubRuns`: for an `m:r` whose first `m:t`
text matches the norm pattern, the replacement node list; `none` when the run
is left alone. -/
def normRunRewrite (x : XNode) : Option (List XNode) :=
  if !(isElem x && isM x "r") then none
  else match firstElemChildWithLocal x "t" with
    | none => none
    | some tEl =>
      match normMatch (textContent tEl) with
      | none => none
      | some (pfx, digits, suffix) =>
        if digits.isEmpty then none else some (normReplacementNodes pfx digits suffix)

/-- The child-list scan of `fixNormSupSubRuns`: each original child is checked
once (replacement nodes are not rescanned at this level). -/
def fixNormScan : List XNode → List XNode
  | [] => []
  | x :: xs =>
    match normRunRewrite x with
    | some repl => repl ++ fixNormScan xs
    | none => x :: fixNormScan xs

mutual

/-- Source: `fixNormSupSubRuns`: run the norm scan over the direct children of
every element except `m:nary` and `m:t` containers (recurse-first, which
preserves the source's pre-order because the scan only depends on run texts). -/
def fixNormSupSubRuns : XNode → XNode
  | .text s => .text s
  | n@(.elem tag ns attrs cs) =>
    let cs' := fixNormSupSubList cs
    if isM n "t" || isM n "nary" then .elem tag ns attrs cs'
    else .elem tag ns attrs (fixNormScan cs')

/-- Child-list sweep of `fixNormSupSubRuns`. -/
def fixNormSupSubList : List XNode → List XNode
  | [] => []
  | x :: xs => fixNormSupSubRuns x :: fixNormSupSubList xs

end

/-! ### Repair pass: empty-integrand adoption
(source: `fixEmptyNaryIntegrand`, route.ts 959-994) -/

/-- An `m:nary` whose first `m:e` child exists and has no element children. -/
def isNaryWithEmptyE (x : XNode) : Bool :=
  isM x "nary" &&
    match firstElemChildWithLocal x "e" with
    | some eNode => !(childrenOf eNode).any isElem
    | none => false

/-- The differential-marker test of route.ts 986-989: an `m:r` whose
whitespace-stripped text matches `/^d.*x/i`. -/
def isDifferentialRun (n : XNode) : Bool :=
  isM n "r" &&
    (match (removeWs (textContent n)).data with
     | c :: rest => (c == 'd' || c == 'D') && rest.any fun c2 => c2 == 'x' || c2 == 'X'
     | [] => false)

/-- Append the adopted sibling at the end of the nary's first `m:e` child. -/
def appendIntoFirstE (x adoptee : XNode) : XNode :=
  match x with
  | .elem tag ns attrs cs =>
    .elem tag ns attrs
      (replaceFirstElemWithLocal "e"
        (fun e => match e with
          | .elem et en ea ec => .elem et en ea (ec ++ [adoptee])
          | t => t) cs)
  | t => t

mutual

/-- The sibling scan of `fixEmptyNaryIntegrand`: each `m:nary` with an empty
integrand adopts the next element sibling unless that sibling is a
differential-marker run. -/
def adoptScan : List XNode → List XNode
  | [] => []
  | x :: rest =>
    if isNaryWithEmptyE x then adoptSearch x [] rest
    else x :: adoptScan rest

/-- Search for the next element sibling of the adoptable nary `x`,
accumulating the skipped text nodes (which stay in place). -/
def adoptSearch (x : XNode) (acc : List XNode) : List XNode → List XNode
  | [] => x :: acc.reverse
  | .text s :: xs => adoptSearch x (XNode.text s :: acc) xs
  | y@(.elem ..) :: xs =>
    if isDifferentialRun y then x :: acc.reverse ++ y :: adoptScan xs
    else appendIntoFirstE x y :: acc.reverse ++ adoptScan xs

end

mutual

/-- Source: `fixEmptyNaryIntegrand`: the adoption acts on each container's
direct child list (an `m:nary` visited by the source traversal adopts among
its parent's children); the recurse-first sweep used here performs the same
left-to-right adoptions as the source's pre-order traversal. -/
def fixEmptyNaryIntegrand : XNode → XNode
  | .text s => .text s
  | .elem tag ns attrs cs => .elem tag ns attrs (adoptScan (fixEmptyNaryList cs))

/-- Child-list sweep of `fixEmptyNaryIntegrand`. -/
def fixEmptyNaryList : List XNode → List XNode
  | [] => []
  | x :: xs => fixEmptyNaryIntegrand x :: fixEmptyNaryList xs

end

/-! ### Repair pass: parenthesis-in-script wrapping
(source: `wrapParensInScripts`, route.ts 568-645) -/

/-- The `m:d` node built by the wrapping passes: `m:dPr` with
`m:begChr`/`m:endChr`/`m:grow="1"`, then `m:e` with the given content. -/
def mkDelimD (beg endc : String) (content : List XNode) : XNode :=
  mkM "m:d" []
    [mkM "m:dPr" []
      [mkM "m:begChr" [("m:val", beg)] [],
       mkM "m:endChr" [("m:val", endc)] [],
       mkM "m:grow" [("m:val", "1")] []],
     mkM "m:e" [] content]

/-- The delimiter registry of `wrapParensInScripts` (route.ts 570-573). -/
def wrapParensPairs : List (String × String) :=
  [("(", ")"), ("\x7b", "\x7d")]

/-- The rewrite of one script base slot (route.ts 579-643): when the `m:e`
holds at least three element children whose first and last are single-char
runs forming a registered pair, the nodes strictly between them move into a
fresh stretchy delimiter replacing the pair. -/
def wrapParensRewriteE (e : XNode) : XNode :=
  match e with
  | .elem et en ea ec =>
    if countElems ec < 3 then XNode.elem et en ea ec
    else
      match splitToNextElem ec with
      | none => XNode.elem et en ea ec
      | some (lead, firstEl, rest1) =>
        match splitToNextElem rest1.reverse with
        | none => XNode.elem et en ea ec
        | some (trailRev, lastEl, midRev) =>
          match runTextIfSingleChar firstEl, runTextIfSingleChar lastEl with
          | some oc, some cc =>
            if wrapParensPairs.any
                (fun p => p.1 == (⟨[oc]⟩ : String) && p.2 == (⟨[cc]⟩ : String)) then
              XNode.elem et en ea
                (lead ++ [mkDelimD ⟨[oc]⟩ ⟨[cc]⟩ midRev.reverse] ++ trailRev.reverse)
            else XNode.elem et en ea ec
          | _, _ => XNode.elem et en ea ec
  | t => t

mutual

/-- Source: `wrapParensInScripts`: rewrite the first `m:e` child of every
script construct (recurse-first; the rewrite conditions depend only on the
base slot's element count and its boundary run texts, which the recursion
preserves, so this equals the source's pre-order traversal). -/
def wrapParensInScripts : XNode → XNode
  | .text s => .text s
  | .elem tag ns attrs cs =>
    let cs' := wrapParensList cs
    if isScriptLocal (tagLocal tag) then
      .elem tag ns attrs (replaceFirstElemWithLocal "e" wrapParensRewriteE cs')
    else .elem tag ns attrs cs'

/-- Child-list sweep of `wrapParensInScripts`. -/
def wrapParensList : List XNode → List XNode
  | [] => []
  | x :: xs => wrapParensInScripts x :: wrapParensList xs

end

/-! ### Repair pass: square-bracket-around-tall wrapping
(source: `wrapSquareBracketsAroundTall`, route.ts 692-753) -/

/-- Scan forward for the first element run holding `]`, collecting the
crossed nodes and whether a tall element was crossed. -/
def findCloseBracket (acc : List XNode) (tall : Bool) :
    List XNode → Option (List XNode × Bool × List XNode)
  | [] => none
  | y :: ys =>
    if isElem y then
      if runTextIfSingleChar y == some ']' then some (acc.reverse, tall, ys)
      else findCloseBracket (y :: acc) (tall || isTall y) ys
    else findCloseBracket (y :: acc) tall ys

/-- One rewrite attempt of the `wrapSquareBracketsAroundTall` loop: find an
open-bracket run followed, with at least one tall element in between, by a
matching close run; collapse the span into a stretchy delimiter. -/
def scanSquare : List XNode → Option (List XNode)
  | [] => none
  | x :: rest =>
    if runTextIfSingleChar x == some '[' then
      match findCloseBracket [] false rest with
      | some (seg, tall, rest2) =>
        if tall then some (mkDelimD "[" "]" seg :: rest2)
        else (scanSquare rest).map (x :: ·)
      | none => (scanSquare rest).map (x :: ·)
    else (scanSquare rest).map (x :: ·)

/-- The `while (changed)` loop of the pass: rewrite until no span matches.
Each rewrite shortens the list by at least two nodes, so the wrapper's fuel
(the list length plus one) reaches the fixpoint. -/
def squareLoop : Nat → List XNode → List XNode
  | 0, l => l
  | fuel + 1, l =>
    match scanSquare l with
    | some l' => squareLoop fuel l'
    | none => l

mutual

/-- Source: `wrapSquareBracketsAroundTall`: run the bracket loop over the
direct children of every element except `m:t` and `m:nary` containers
(recurse-first; the loop conditions depend only on run texts and child tags,
which the recursion preserves). -/
def wrapSquareBracketsAroundTall : XNode → XNode
  | .text s => .text s
  | n@(.elem tag ns attrs cs) =>
    let cs' := wrapSquareList cs
    if isM n "t" || isM n "nary" then .elem tag ns attrs cs'
    else .elem tag ns attrs (squareLoop (cs'.length + 1) cs')

/-- Child-list sweep of `wrapSquareBracketsAroundTall`. -/
def wrapSquareList : List XNode → List XNode
  | [] => []
  | x :: xs => wrapSquareBracketsAroundTall x :: wrapSquareList xs

end

/-! ### Repair pass: brace-before-matrix wrapping
(source: `wrapBraceBeforeMatrix`, route.ts 647-691) -/

/-- One rewrite attempt of the `wrapBraceBeforeMatrix` loop: an open-brace
run immediately followed by an `m:m` matrix becomes a one-sided stretchy
delimiter (begin brace, empty end character) around the matrix. -/
def scanBrace : List XNode → Option (List XNode)
  | [] => none
  | x :: rest =>
    match rest with
    | [] => none
    | y :: ys =>
      if runTextIfSingleChar x == some (Char.ofNat 0x7B) && isM y "m" then
        some (mkDelimD "\x7b" "" [y] :: ys)
      else (scanBrace rest).map (x :: ·)

/-- The `while (changed)` loop of `wrapBraceBeforeMatrix`. -/
def braceLoop : Nat → List XNode → List XNode
  | 0, l => l
  | fuel + 1, l =>
    match scanBrace l with
    | some l' => braceLoop fuel l'
    | none => l

mutual

/-- Source: `wrapBraceBeforeMatrix` (recurse-first sweep over every element
except `m:t` and `m:nary` containers). -/
def wrapBraceBeforeMatrix : XNode → XNode
  | .text s => .text s
  | n@(.elem tag ns attrs cs) =>
    let cs' := wrapBraceList cs
    if isM n "t" || isM n "nary" then .elem tag ns attrs cs'
    else .elem tag ns attrs (braceLoop (cs'.length + 1) cs')

/-- Child-list sweep of `wrapBraceBeforeMatrix`. -/
def wrapBraceList : List XNode → List XNode
  | [] => []
  | x :: xs => wrapBraceBeforeMatrix x :: wrapBraceList xs

end

/-! ### Repair pass: bracketed-fraction reconstruction
(source: `fixBracketedFraction`, route.ts 1085-1185) -/

/-- The bracketed fraction built at route.ts 1138-1173: a square-bracket
delimiter around a bar-type fraction whose numerator holds the integral nary
(plus the non-empty trimmed numerator tail run) and whose denominator holds
the `1+` head (either as a fresh run from the split text or as the moved
original run) followed by the summation nary. -/
def mkBracketFracD (integralNode : XNode) (numeratorTail : String)
    (denomHead : Option String) (denomRun : Option XNode) (sumNode : XNode) : XNode :=
  mkM "m:d" []
    [mkM "m:dPr" []
      [mkM "m:begChr" [("m:val", "[")] [],
       mkM "m:endChr" [("m:val", "]")] [],
       mkM "m:grow" [("m:val", "1")] []],
     mkM "m:e" []
      [mkM "m:f" []
        [mkM "m:fPr" [] [mkM "m:type" [("m:val", "bar")] []],
         mkM "m:num" []
          ([integralNode] ++
            if (jsTrim numeratorTail).isEmpty then [] else [makeRunWithText numeratorTail]),
         mkM "m:den" []
          ((match denomHead, denomRun with
            | some h, _ => if h.isEmpty then [] else [makeRunWithText h]
            | none, some r => [r]
            | none, none => []) ++ [sumNode])]]]

/-- One scan of the `fixBracketedFraction` pattern over a child list (the
source rewrites at most one match per container and then breaks).  The fuel
bounds the scan steps (the wrapper passes the list length). -/
def scanBracketFracAux : Nat → List XNode → Option (List XNode)
  | _, [] => none
  | 0, _ => none
  | fuel + 1, n0 :: rest =>
    let skip : Option (List XNode) := (scanBracketFracAux fuel rest).map (n0 :: ·)
    match rest with
    | n1 :: n2 :: rest2 =>
      if getRunText n0 == "[" && isNaryWithChr n1 intStr && getRunText n2 != "" then
        let run2Text := getRunText n2
        match findSubAux "1+".data run2Text.data 0 with
        | some k =>
          match rest2 with
          | n3 :: n4 :: rest3 =>
            if isNaryWithChr n3 sumStr && isElem n4 && getRunText n4 == "]" then
              some (mkBracketFracD n1 ⟨run2Text.data.take k⟩
                (some ⟨run2Text.data.drop k⟩) none n3 :: rest3)
            else skip
          | _ => skip
        | none =>
          match rest2 with
          | n3 :: n4 :: n5 :: rest3 =>
            if isElem n3 && getRunText n3 == "1+" && isNaryWithChr n4 sumStr &&
                isElem n5 && getRunText n5 == "]" then
              some (mkBracketFracD n1 run2Text none (some n3) n4 :: rest3)
            else skip
          | _ => skip
      else skip
    | _ => skip

/-- Wrapper for `scanBracketFracAux`. -/
def scanBracketFrac (l : List XNode) : Option (List XNode) :=
  scanBracketFracAux l.length l

mutual

/-- Source: `fixBracketedFraction`: apply at most one bracketed-fraction
rewrite to the direct children of every element except `m:t` containers
(recurse-first sweep, which preserves the source's pre-order because the
pattern only inspects run texts and nary operator characters). -/
def fixBracketedFraction : XNode → XNode
  | .text s => .text s
  | n@(.elem tag ns attrs cs) =>
    let cs' := fixBracketedFracList cs
    if isM n "t" then .elem tag ns attrs cs'
    else .elem tag ns attrs ((scanBracketFrac cs').getD cs')

/-- Child-list sweep of `fixBracketedFraction`. -/
def fixBracketedFracList : List XNode → List XNode
  | [] => []
  | x :: xs => fixBracketedFraction x :: fixBracketedFracList xs

end

/-! ### Repair pass: generic delimiter promotion
(source: `promoteDelimitersInContainer`, route.ts 479-566)

The fourth and sixth entries of the source's delimiter registry are
mojibake-corrupted literals (multi-byte UTF-8 decoded twice); they are
reproduced below character for character.  Being longer than one character
they can never equal the single-character run text they are compared with. -/

/-- The corrupted open-angle literal of the registry (130 characters). -/
def mojibakeAngleOpen : String :=
  "\u00c3\u0192\u00c6\u2019\u00c3\u2020\u00e2\u20ac\u2122\u00c3\u0192\u00e2\u20ac\u00a0\u00c3\u00a2\u00e2\u201a\u00ac\u00e2\u201e\u00a2\u00c3\u0192\u00c6\u2019\u00c3\u00a2\u00e2\u201a\u00ac\u00c5\u00a1\u00c3\u0192\u00e2\u20ac\u0161\u00c3\u201a\u00c2\u00a2\u00c3\u0192\u00c6\u2019\u00c3\u2020\u00e2\u20ac\u2122\u00c3\u0192\u00c2\u00a2\u00c3\u00a2\u00e2\u20ac\u0161\u00c2\u00ac\u00c3\u201a\u00c2\u00a6\u00c3\u0192\u00c6\u2019\u00c3\u00a2\u00e2\u201a\u00ac\u00c5\u00a1\u00c3\u0192\u00e2\u20ac\u0161\u00c3\u201a\u00c2\u00b8\u00c3\u0192\u00c6\u2019\u00c3\u2020\u00e2\u20ac\u2122\u00c3\u0192\u00c2\u00a2\u00c3\u00a2\u00e2\u20ac\u0161\u00c2\u00ac\u00c3\u2026\u00c2\u00a1\u00c3\u0192\u00c6\u2019\u00c3\u00a2\u00e2\u201a\u00ac\u00c5\u00a1\u00c3\u0192\u00e2\u20ac\u0161\u00c3\u201a\u00c2\u00a8"

/-- The corrupted close-angle literal of the registry (130 characters). -/
def mojibakeAngleClose : String :=
  "\u00c3\u0192\u00c6\u2019\u00c3\u2020\u00e2\u20ac\u2122\u00c3\u0192\u00e2\u20ac\u00a0\u00c3\u00a2\u00e2\u201a\u00ac\u00e2\u201e\u00a2\u00c3\u0192\u00c6\u2019\u00c3\u00a2\u00e2\u201a\u00ac\u00c5\u00a1\u00c3\u0192\u00e2\u20ac\u0161\u00c3\u201a\u00c2\u00a2\u00c3\u0192\u00c6\u2019\u00c3\u2020\u00e2\u20ac\u2122\u00c3\u0192\u00c2\u00a2\u00c3\u00a2\u00e2\u20ac\u0161\u00c2\u00ac\u00c3\u201a\u00c2\u00a6\u00c3\u0192\u00c6\u2019\u00c3\u00a2\u00e2\u201a\u00ac\u00c5\u00a1\u00c3\u0192\u00e2\u20ac\u0161\u00c3\u201a\u00c2\u00b8\u00c3\u0192\u00c6\u2019\u00c3\u2020\u00e2\u20ac\u2122\u00c3\u0192\u00c2\u00a2\u00c3\u00a2\u00e2\u20ac\u0161\u00c2\u00ac\u00c3\u2026\u00c2\u00a1\u00c3\u0192\u00c6\u2019\u00c3\u00a2\u00e2\u201a\u00ac\u00c5\u00a1\u00c3\u0192\u00e2\u20ac\u0161\u00c3\u201a\u00c2\u00a9"

/-- The corrupted double-bar literal of the registry (197 characters; the
pair uses it as both its open and its close entry). -/
def mojibakeBar : String :=
  "\u00c3\u0192\u00c6\u2019\u00c3\u2020\u00e2\u20ac\u2122\u00c3\u0192\u00e2\u20ac\u00a0\u00c3\u00a2\u00e2\u201a\u00ac\u00e2\u201e\u00a2\u00c3\u0192\u00c6\u2019\u00c3\u00a2\u00e2\u201a\u00ac\u00c5\u00a1\u00c3\u0192\u00e2\u20ac\u0161\u00c3\u201a\u00c2\u00a2\u00c3\u0192\u00c6\u2019\u00c3\u2020\u00e2\u20ac\u2122\u00c3\u0192\u00e2\u20ac\u0161\u00c3\u201a\u00c2\u00a2\u00c3\u0192\u00c6\u2019\u00c3\u201a\u00c2\u00a2\u00c3\u0192\u00c2\u00a2\u00c3\u00a2\u00e2\u201a\u00ac\u00c5\u00a1\u00c3\u201a\u00c2\u00ac\u00c3\u0192\u00e2\u20ac\u00a6\u00c3\u201a\u00c2\u00a1\u00c3\u0192\u00c6\u2019\u00c3\u00a2\u00e2\u201a\u00ac\u00c5\u00a1\u00c3\u0192\u00e2\u20ac\u0161\u00c3\u201a\u00c2\u00ac\u00c3\u0192\u00c6\u2019\u00c3\u2020\u00e2\u20ac\u2122\u00c3\u0192\u00e2\u20ac\u0161\u00c3\u201a\u00c2\u00a2\u00c3\u0192\u00c6\u2019\u00c3\u201a\u00c2\u00a2\u00c3\u0192\u00c2\u00a2\u00c3\u00a2\u00e2\u20ac\u0161\u00c2\u00ac\u00c3\u2026\u00c2\u00a1\u00c3\u0192\u00e2\u20ac\u0161\u00c3\u201a\u00c2\u00ac\u00c3\u0192\u00c6\u2019\u00c3\u201a\u00c2\u00a2\u00c3\u0192\u00c2\u00a2\u00c3\u00a2\u00e2\u201a\u00ac\u00c5\u00a1\u00c3\u201a\u00c2\u00ac\u00c3\u0192\u00e2\u20ac\u00a6\u00c3\u00a2\u00e2\u201a\u00ac\u00c5\u201c"

/-- The delimiter-pair registry of `promoteDelimitersInContainer`
(route.ts 480-487). -/
def promotePairs : List (String × String) :=
  [("(", ")"), ("[", "]"), ("\x7b", "\x7d"),
   (mojibakeAngleOpen, mojibakeAngleClose), ("|", "|"), (mojibakeBar, mojibakeBar)]

/-- The `begOnly` set of route.ts 489 (declared by the source but never
used by the rewrite). -/
def promoteBegOnly : List String :=
  ["(", "[", "\x7b", mojibakeAngleOpen, "|", mojibakeBar]

/-- Source: `createDelimiterWithOptionalEnd` (route.ts 498-522). -/
def createDelimiterWithOptionalEnd (beg endc : String) (inner : XNode) : XNode :=
  mkDelimD beg endc [inner]

/-- Does the registry hold the (open, close) pair? -/
def promotePairMatch (oc cc : Char) : Bool :=
  promotePairs.any fun p => p.1 == (⟨[oc]⟩ : String) && p.2 == (⟨[cc]⟩ : String)

/-- The rewrite attempt of loop position `i` (route.ts 529-563): with `x` as
the candidate opening run, the next element of `rest` must be tall and the
element after that must close a registered pair; the collapsed list replaces
the three nodes by the new delimiter, the intervening non-element nodes
staying in place after it.  `none` when anything fails (the loop then moves
to the next position). -/
def scanPromoteHead (x : XNode) (rest : List XNode) : Option (List XNode) :=
  match runTextIfSingleChar x with
  | none => none
  | some oc =>
    match splitToNextElem rest with
    | none => none
    | some (mid1, b, rest2) =>
      if !isTall b then none
      else
        match splitToNextElem rest2 with
        | none => none
        | some (mid2, c, rest3) =>
          match runTextIfSingleChar c with
          | none => none
          | some cc =>
            if promotePairMatch oc cc then
              some (createDelimiterWithOptionalEnd ⟨[oc]⟩ ⟨[cc]⟩ b ::
                (mid1 ++ mid2 ++ rest3))
            else none

/-- One full scan of the promotion loop: the first position whose rewrite
attempt succeeds yields the rewritten list. -/
def scanPromote : List XNode → Option (List XNode)
  | [] => none
  | x :: rest =>
    match scanPromoteHead x rest with
    | some l' => some l'
    | none => (scanPromote rest).map (x :: ·)

/-- The `while (changed)` loop of `promoteDelimitersInContainer`: rewrite and
rescan until no triple matches.  Each rewrite removes two elements from the
list, so the wrapper's fuel (the list length plus one) reaches the fixpoint
(`promoteLoop_fix` below). -/
def promoteLoop : Nat → List XNode → List XNode
  | 0, l => l
  | fuel + 1, l =>
    match scanPromote l with
    | some l' => promoteLoop fuel l'
    | none => l

/-- Source: `promoteDelimitersInContainer`: the promotion loop over the
direct child list of one container (the source function does not recurse). -/
def promoteDelimitersInContainer : XNode → XNode
  | .text s => .text s
  | .elem tag ns attrs cs => .elem tag ns attrs (promoteLoop (cs.length + 1) cs)

mutual

/-- The promotion sweep of `postProcessOmml` (route.ts 1242-1246): apply the
container promotion at every element except `m:t` (recurse-first; the loop
conditions depend only on run texts and child tags, which the recursion
preserves). -/
def promoteAll : XNode → XNode
  | .text s => .text s
  | n@(.elem tag ns attrs cs) =>
    let cs' := promoteAllList cs
    if isM n "t" then .elem tag ns attrs cs'
    else .elem tag ns attrs (promoteLoop (cs'.length + 1) cs')

/-- Child-list sweep of `promoteAll`. -/
def promoteAllList : List XNode → List XNode
  | [] => []
  | x :: xs => promoteAll x :: promoteAllList xs

end

/-! ### String cleanup around the converter -/

/-- The anchored `s.replace(/^\s*<\?xml[^>]*\?>\s*/i, "")`: drop a leading XML
declaration together with surrounding whitespace (first occurrence only, and
only at the start). -/
def stripXmlDeclPrefix (s : String) : String :=
  let t := s.data.dropWhile jsWs
  if startsWithListCI "<?xml".data t then
    let u := t.drop 5
    match findSubAux ['>'] u 0 with
    | some j =>
      if j ≥ 1 && u.getD (j - 1) ' ' == '?' then ⟨(u.drop (j + 1)).dropWhile jsWs⟩
      else s
    | none => s
  else s

/-- The `s.replace(/\s+xmlns:p="[^"]+"/g, "")` rewrites: remove a whitespace
run followed by the given `xmlns:p="..."` attribute text. -/
def removeXmlnsAttrAux (lit : List Char) : Nat → List Char → List Char
  | _, [] => []
  | 0, s => s
  | fuel + 1, s@(c :: rest) =>
    if jsWs c then
      let wsRun := s.takeWhile jsWs
      let t := s.drop wsRun.length
      if startsWithList lit t then
        let u := t.drop lit.length
        let v := u.takeWhile (· != '"')
        if !v.isEmpty && v.length < u.length then
          removeXmlnsAttrAux lit fuel (u.drop (v.length + 1))
        else c :: removeXmlnsAttrAux lit fuel rest
      else c :: removeXmlnsAttrAux lit fuel rest
    else c :: removeXmlnsAttrAux lit fuel rest

/-- Wrapper for `removeXmlnsAttrAux`. -/
def removeXmlnsAttr (pfx s : String) : String :=
  ⟨removeXmlnsAttrAux ("xmlns:" ++ pfx ++ "=\"").data s.data.length s.data⟩

/-- The shared cleanup of `finalizeOmmlString` (route.ts 1260-1265), the
fragment cleaning of `parseOmmlFragment` (route.ts 283-287) and the
`cleanOmml` closure of `patchDocxWithMath` (route.ts 1627-1632): strip a
leading XML declaration and every `xmlns:m`/`xmlns:w` attribute, then trim. -/
def stripDeclAndNs (s : String) : String :=
  jsTrim (removeXmlnsAttr "w" (removeXmlnsAttr "m" (stripXmlDeclPrefix s)))

/-- Source: `finalizeOmmlString` (route.ts 1260-1265). -/
def finalizeOmmlString (omml : String) : String :=
  stripDeclAndNs omml

/-- The bracket class of `stripFenceDelimiters` (`[\[\]\(\)\{\}]`). -/
def fenceBrackets : List Char :=
  ['[', ']', '(', ')', Char.ofNat 0x7B, Char.ofNat 0x7D]

/-- Source: `stripFenceDelimiters` (route.ts 67-71), the
`/<mo[^>]*fence=\"true\"[^>]*>\s*([\[\]\(\)\{\}])\s*<\/mo>/gi` removal: an
`<mo>` open tag whose attribute text contains `fence="true"`, enclosing a
single bracket character with optional surrounding whitespace. -/
def stripFenceDelimitersAux : Nat → List Char → List Char
  | _, [] => []
  | 0, s => s
  | fuel + 1, s@(c :: rest) =>
    if startsWithListCI "<mo".data s then
      let u := s.drop 3
      let r := u.takeWhile (· != '>')
      if r.length < u.length && (findSubAuxCI "fence=\"true\"".data r 0).isSome then
        let v := (u.drop (r.length + 1)).dropWhile jsWs
        match v with
        | b :: v2 =>
          if fenceBrackets.contains b then
            let w := v2.dropWhile jsWs
            if startsWithListCI "</mo>".data w then stripFenceDelimitersAux fuel (w.drop 5)
            else c :: stripFenceDelimitersAux fuel rest
          else c :: stripFenceDelimitersAux fuel rest
        | [] => c :: stripFenceDelimitersAux fuel rest
      else c :: stripFenceDelimitersAux fuel rest
    else c :: stripFenceDelimitersAux fuel rest

/-- Wrapper for `stripFenceDelimitersAux`. -/
def stripFenceDelimiters (mathML : String) : String :=
  ⟨stripFenceDelimitersAux mathML.data.length mathML.data⟩

/-- Source: `cleanMathMl` (route.ts 126-127), the lazy
`/<annotation[\s\S]*?<\/annotation>/gi` removal (note: the open literal has no
word boundary, so it also fires at `<annotation-xml`). -/
def cleanMathMl (mathML : String) : String :=
  removeLazyBlockCI "<annotation" "</annotation>" mathML

/-- The `/<\s*semantics[^>]*>/gi` removal of route.ts 137. -/
def removeSemanticsOpenAux : Nat → List Char → List Char
  | _, [] => []
  | 0, s => s
  | fuel + 1, s@(c :: rest) =>
    if c == '<' then
      let t := rest.dropWhile jsWs
      if startsWithListCI "semantics".data t then
        let u := t.drop 9
        let r := u.takeWhile (· != '>')
        if r.length < u.length then removeSemanticsOpenAux fuel (u.drop (r.length + 1))
        else c :: removeSemanticsOpenAux fuel rest
      else c :: removeSemanticsOpenAux fuel rest
    else c :: removeSemanticsOpenAux fuel rest

/-- The `/<\/\s*semantics\s*>/gi` removal of route.ts 137. -/
def removeSemanticsCloseAux : Nat → List Char → List Char
  | _, [] => []
  | 0, s => s
  | fuel + 1, s@(c :: rest) =>
    if startsWithList "</".data s then
      let t := (s.drop 2).dropWhile jsWs
      if startsWithListCI "semantics".data t then
        let u := (t.drop 9).dropWhile jsWs
        match u with
        | '>' :: u2 => removeSemanticsCloseAux fuel u2
        | _ => c :: removeSemanticsCloseAux fuel rest
      else c :: removeSemanticsCloseAux fuel rest
    else c :: removeSemanticsCloseAux fuel rest

/-- The `/<mstyle[^>]*>/gi` removal of route.ts 141 (no word boundary). -/
def removeMstyleOpenAux : Nat → List Char → List Char
  | _, [] => []
  | 0, s => s
  | fuel + 1, s@(c :: rest) =>
    if startsWithListCI "<mstyle".data s then
      let u := s.drop 7
      let r := u.takeWhile (· != '>')
      if r.length < u.length then removeMstyleOpenAux fuel (u.drop (r.length + 1))
      else c :: removeMstyleOpenAux fuel rest
    else c :: removeMstyleOpenAux fuel rest

/-- The `/<[^>]+>/g` removal used on `<mtext>` bodies (route.ts 153). -/
def removeAngleTagsAux : Nat → List Char → List Char
  | _, [] => []
  | 0, s => s
  | fuel + 1, s@(c :: rest) =>
    if c == '<' then
      match findSubAux ['>'] rest 0 with
      | some j =>
        if j ≥ 1 then removeAngleTagsAux fuel (rest.drop (j + 1))
        else c :: removeAngleTagsAux fuel rest
      | none => c :: removeAngleTagsAux fuel rest
    else c :: removeAngleTagsAux fuel rest

/-- The zero-width class stripped from `<mtext>` bodies
(`[​-‍﻿­⁠-⁯‪-‮]`, route.ts 154). -/
def isMtextZeroWidth (c : Char) : Bool :=
  (0x200B ≤ c.toNat && c.toNat ≤ 0x200D) || c.toNat == 0xFEFF || c.toNat == 0xAD ||
  (0x2060 ≤ c.toNat && c.toNat ≤ 0x206F) || (0x202A ≤ c.toNat && c.toNat ≤ 0x202E)

/-- The replacement computed for one `<mtext>` body (route.ts 151-158):
strip nested tags and zero-width characters, collapse whitespace, trim; an
empty result removes the node, otherwise it becomes an `<mi>`. -/
def mtextReplacement (body : String) : String :=
  let cleaned :=
    jsTrim (collapseWs (removeChars isMtextZeroWidth ⟨removeAngleTagsAux body.data.length body.data⟩))
  if cleaned.isEmpty then "" else "<mi>" ++ cleaned ++ "</mi>"

/-- The `/<mtext\b[^>]*>([\s\S]*?)<\/mtext>/gi` rewrite of route.ts 151-158:
an `<mtext>` open tag (word boundary after the name), a lazy body up to the
nearest closing tag, replaced by `mtextReplacement` of the body. -/
def rewriteMtextAux : Nat → List Char → List Char
  | _, [] => []
  | 0, s => s
  | fuel + 1, s@(c :: rest) =>
    if startsWithListCI "<mtext".data s &&
        !(match s.drop 6 with | [] => false | c2 :: _ => jsWord c2) then
      let u := s.drop 6
      let r := u.takeWhile (· != '>')
      if r.length < u.length then
        let afterGt := u.drop (r.length + 1)
        match findSubAuxCI "</mtext>".data afterGt 0 with
        | some j =>
          (mtextReplacement ⟨afterGt.take j⟩).data ++
            rewriteMtextAux fuel (afterGt.drop (j + 8))
        | none => c :: rewriteMtextAux fuel rest
      else c :: rewriteMtextAux fuel rest
    else c :: rewriteMtextAux fuel rest

/-- The `/<mo\b[^>]*>\s*<\/mo>/gi` removal of route.ts 161: an empty `<mo>`
element (word boundary after the name, only whitespace inside). -/
def removeEmptyMoAux : Nat → List Char → List Char
  | _, [] => []
  | 0, s => s
  | fuel + 1, s@(c :: rest) =>
    if startsWithListCI "<mo".data s &&
        !(match s.drop 3 with | [] => false | c2 :: _ => jsWord c2) then
      let u := s.drop 3
      let r := u.takeWhile (· != '>')
      if r.length < u.length then
        let w := (u.drop (r.length + 1)).dropWhile jsWs
        if startsWithListCI "</mo>".data w then removeEmptyMoAux fuel (w.drop 5)
        else c :: removeEmptyMoAux fuel rest
      else c :: removeEmptyMoAux fuel rest
    else c :: removeEmptyMoAux fuel rest

/-- The deterministic tail of the `msubsup` pattern of route.ts 164:
`\s*(<mn>2<\/mn>)\s*(<mn>2<\/mn>)\s*<\/msubsup>` (each `\s*` is followed by a
literal starting with a non-whitespace character, so matching is forced).
Returns the two captured `<mn>2</mn>` texts and the remainder. -/
def msubsupTailMatch (t : List Char) : Option (List Char × List Char × List Char) :=
  let t1 := t.dropWhile jsWs
  if startsWithListCI "<mn>2</mn>".data t1 then
    let subG := t1.take 10
    let t2 := (t1.drop 10).dropWhile jsWs
    if startsWithListCI "<mn>2</mn>".data t2 then
      let supG := t2.take 10
      let t3 := (t2.drop 10).dropWhile jsWs
      if startsWithListCI "</msubsup>".data t3 then some (subG, supG, t3.drop 10)
      else none
    else none
  else none

/-- Find the lazy group of the `msubsup` pattern: the shortest body after
which the deterministic tail matches.  Returns the body, the two captured
`<mn>2</mn>` texts, and the remainder. -/
def msubsupFindBody (acc : List Char) :
    List Char → Option (List Char × List Char × List Char × List Char)
  | [] =>
    match msubsupTailMatch [] with
    | some (subG, supG, rest) => some (acc.reverse, subG, supG, rest)
    | none => none
  | t@(c :: t') =>
    match msubsupTailMatch t with
    | some (subG, supG, rest) => some (acc.reverse, subG, supG, rest)
    | none => msubsupFindBody (c :: acc) t'

/-- The `msubsup` rewrite of route.ts 164-167
(`/<msubsup>\s*([\s\S]*?)\s*(<mn>2<\/mn>)\s*(<mn>2<\/mn>)\s*<\/msubsup>/gi`
with a function replacement): when the captured base contains the double-bar
glyph the construct becomes nested `msub`/`msup`; otherwise the whole matched
text is left unchanged (and not rescanned). -/
def rewriteNormMsubsupAux : Nat → List Char → List Char
  | _, [] => []
  | 0, s => s
  | fuel + 1, s@(c :: rest) =>
    if startsWithListCI "<msubsup>".data s then
      let u := s.drop 9
      let ws := u.takeWhile jsWs
      match msubsupFindBody [] (u.drop ws.length) with
      | some (body, subG, supG, after) =>
        let matchedLen := s.length - after.length
        if body.contains dblBarChar then
          ("<msup><msub>".data ++ body ++ subG ++ "</msub>".data ++ supG ++ "</msup>".data) ++
            rewriteNormMsubsupAux fuel after
        else s.take matchedLen ++ rewriteNormMsubsupAux fuel after
      | none => c :: rewriteNormMsubsupAux fuel rest
    else c :: rewriteNormMsubsupAux fuel rest

/-- The attribute names stripped from `<mo>` open tags (route.ts 171). -/
def moStripAttrNames : List String :=
  ["fence", "stretchy", "minsize", "maxsize", "largeop", "movablelimits",
   "accent", "separator", "form", "lspace", "rspace"]

/-- The inner `/\s(?:fence|...)="[^"]*"/gi` removal applied to one matched
`<mo ...>` open tag: a single whitespace character, an attribute name, and a
quoted value. -/
def stripMoAttrListAux : Nat → List Char → List Char
  | _, [] => []
  | 0, s => s
  | fuel + 1, s@(c :: rest) =>
    if jsWs c then
      match moStripAttrNames.find? (fun a => startsWithListCI (a ++ "=\"").data rest) with
      | some a =>
        let u := rest.drop (a.data.length + 2)
        let v := u.takeWhile (· != '"')
        if v.length < u.length then stripMoAttrListAux fuel (u.drop (v.length + 1))
        else c :: stripMoAttrListAux fuel rest
      | none => c :: stripMoAttrListAux fuel rest
    else c :: stripMoAttrListAux fuel rest

/-- The `/<mo\b[^>]*>/gi` rewrite of route.ts 170-172: each `<mo>` open tag
has its fence/stretchy-style attributes removed. -/
def rewriteMoOpenTagsAux : Nat → List Char → List Char
  | _, [] => []
  | 0, s => s
  | fuel + 1, s@(c :: rest) =>
    if startsWithListCI "<mo".data s &&
        !(match s.drop 3 with | [] => false | c2 :: _ => jsWord c2) then
      let u := s.drop 3
      let r := u.takeWhile (· != '>')
      if r.length < u.length then
        let matched := s.take (3 + r.length + 1)
        stripMoAttrListAux matched.length matched ++ rewriteMoOpenTagsAux fuel (u.drop (r.length + 1))
      else c :: rewriteMoOpenTagsAux fuel rest
    else c :: rewriteMoOpenTagsAux fuel rest

/-- The `/\sxmlns="http:\/\/www\.w3\.org\/1998\/Math\/MathML"/i` removal of
route.ts 175 (first occurrence only). -/
def removeMathMlXmlnsAux : Nat → List Char → List Char
  | _, [] => []
  | 0, s => s
  | fuel + 1, s@(c :: rest) =>
    if jsWs c && startsWithListCI "xmlns=\"http://www.w3.org/1998/Math/MathML\"".data rest then
      rest.drop "xmlns=\"http://www.w3.org/1998/Math/MathML\"".data.length
    else c :: removeMathMlXmlnsAux fuel rest

/-- The invisible-operator class of route.ts 144 (`[⁡-⁤]`). -/
def isInvisibleOp (c : Char) : Bool :=
  0x2061 ≤ c.toNat && c.toNat ≤ 0x2064

/-- The typographic-space class of route.ts 148
(`[     ]`). -/
def isTypographicSpace (c : Char) : Bool :=
  c.toNat == 0xA0 || c.toNat == 0x2005 || c.toNat == 0x2009 ||
  c.toNat == 0x200A || c.toNat == 0x202F

/-- Source: `preCleanMathMlForOmml` (route.ts 133-178), rewrite by rewrite in
the order of the source. -/
def preCleanMathMlForOmml (mathML : String) : String :=
  let s1 := cleanMathMl mathML
  let s2 : String := ⟨removeSemanticsOpenAux s1.data.length s1.data⟩
  let s3 : String := ⟨removeSemanticsCloseAux s2.data.length s2.data⟩
  let s4 := removeLazyBlockCI "<annotation-xml" "</annotation-xml>" s3
  let s5 : String := ⟨removeMstyleOpenAux s4.data.length s4.data⟩
  let s6 := replaceAltCI ["</mstyle>"] "" s5
  let s7 := removeChars isInvisibleOp s6
  let s8 := replaceAltCI ["&nbsp;", "&#160;", "&#xA0;"] " " s7
  let s9 := mapCharsTo isTypographicSpace ' ' s8
  let s10 : String := ⟨rewriteMtextAux s9.data.length s9.data⟩
  let s11 : String := ⟨removeEmptyMoAux s10.data.length s10.data⟩
  let s12 : String := ⟨rewriteNormMsubsupAux s11.data.length s11.data⟩
  let s13 : String := ⟨rewriteMoOpenTagsAux s12.data.length s12.data⟩
  ⟨removeMathMlXmlnsAux s13.data.length s13.data⟩

/-- The `/<mfrac\b/i` test of route.ts 182: a case-insensitive occurrence of
`<mfrac` with a word boundary after it. -/
def testMfracCI (s : String) : Bool :=
  go s.data
where
  go : List Char → Bool
    | [] => false
    | l@(_ :: rest) =>
      (startsWithListCI "<mfrac".data l &&
        !(match l.drop 6 with | [] => false | c2 :: _ => jsWord c2)) || go rest

/-! ### The post-processing pipeline

The external `DOMParser` and `XMLSerializer` (package @xmldom/xmldom) are
passed as the parameters `domParse` and `ser`; `serializeXml` below is a plain
standards-following serializer used to instantiate `ser` in concrete
witnesses. -/

/-- Attribute rendering of the witness serializer. -/
def serializeAttrs : List (String × String) → String
  | [] => ""
  | (k, v) :: rest => " " ++ k ++ "=\"" ++ v ++ "\"" ++ serializeAttrs rest

mutual

/-- A plain XML serializer (start tag with attributes, children, end tag),
used as a concrete instance of the external `XMLSerializer` in witnesses
whose node texts need no escaping. -/
def serializeXml : XNode → String
  | .text s => s
  | .elem tag _ attrs cs =>
    "<" ++ tag ++ serializeAttrs attrs ++ ">" ++ serializeXmlList cs ++ "</" ++ tag ++ ">"

/-- Serialization of a node list. -/
def serializeXmlList : List XNode → String
  | [] => ""
  | x :: xs => serializeXml x ++ serializeXmlList xs

end

mutual

/-- Does any descendant-or-self element carry the given tag name? -/
def hasTagNode (t : String) : XNode → Bool
  | .text _ => false
  | .elem tag _ _ cs => tag == t || hasTagList t cs

/-- `hasTagNode` over a node list. -/
def hasTagList (t : String) : List XNode → Bool
  | [] => false
  | x :: xs => hasTagNode t x || hasTagList t xs

end

/-- Source: `parseOmmlFragment` (route.ts 282-302): clean the fragment, wrap
it in a `root` element declaring the OMML namespace, parse it with the
(external) DOM parser, and reject a missing or non-`root` document element or
a `parsererror` descendant. -/
def parseOmmlFragment (domParse : String → Option XNode) (omml : String) : Option XNode :=
  let cleaned := stripDeclAndNs omml
  let wrapped := "<root xmlns:m=\"" ++ M_NS ++ "\">" ++ cleaned ++ "</root>"
  match domParse wrapped with
  | none => none
  | some root =>
    if tagOf root != "root" then none
    else if hasTagList "parsererror" (childrenOf root) then none
    else some root

/-- Source: `serializeOmmlChildren` (route.ts 304-311): serialize each child
of the wrapper root and concatenate. -/
def serializeOmmlChildren (ser : XNode → String) (root : XNode) : String :=
  String.join ((childrenOf root).map ser)

/-- The nine structural passes shared by `postProcessOmml` (route.ts
1230-1238) and `postProcessOmmlWithoutDelimiters` (route.ts 1208-1216), in
source order. -/
def repairCommonPasses (root : XNode) : XNode :=
  fixBracketedFraction
    (wrapBraceBeforeMatrix
      (wrapSquareBracketsAroundTall
        (wrapParensInScripts
          (forceIntegralLimitsUnderOver
            (fixEmptyNaryIntegrand
              (fixNormSupSubRuns
                (fixRunIntegrals
                  (removeNonMathElements root))))))))

/-- The closing passes shared by both post-processors (route.ts 1217-1219 and
1248-1250): script repair, undefined-style cleanup, text normalization. -/
def repairFinishPasses (root : XNode) : XNode :=
  normalizeOmmlTextNodesDom (removeUndefinedStyle (repairInvalidScripts root))

/-- The whole tree-level repair sequence of `postProcessOmml` for an input
whose raw converter output lacks a fraction marker (so the generic delimiter
promotion runs). -/
def repairPipelineWithPromotion (root : XNode) : XNode :=
  repairFinishPasses (promoteAll (repairCommonPasses root))

/-- Source: `postProcessOmmlWithoutDelimiters` (route.ts 1202-1222). -/
def postProcessOmmlWithoutDelimiters (domParse : String → Option XNode)
    (ser : XNode → String) (omml : String) : Option String :=
  match parseOmmlFragment domParse omml with
  | none => none
  | some root => some (jsTrim (serializeOmmlChildren ser (repairFinishPasses (repairCommonPasses root))))

/-- Source: `postProcessOmml` (route.ts 1224-1258): the same pass sequence,
with the generic delimiter promotion inserted when the raw string has no
`<m:f` marker, and the fraction-vanished fallback re-running the pipeline
without promotion. -/
def postProcessOmml (domParse : String → Option XNode) (ser : XNode → String)
    (omml : String) : Option String :=
  match parseOmmlFragment domParse omml with
  | none => none
  | some root =>
    let root1 := repairCommonPasses root
    let root2 := if !strHasSub omml "<m:f" then promoteAll root1 else root1
    let full := jsTrim (serializeOmmlChildren ser (repairFinishPasses root2))
    if strHasSub omml "<m:f" && !strHasSub full "<m:f" then
      some ((postProcessOmmlWithoutDelimiters domParse ser omml).getD full)
    else some full

/-! ### Converter invocation with retry
(source: `tryMathMlToOmml`, route.ts 180-211; `buildOmmlFromElement`,
route.ts 1267-1313)

The external converter `mml2omml` is the parameter `conv`; a `none` result
models a thrown exception (caught by the source's `try`/`catch`, which
returns `null` for the whole call). -/

/-- The local `run` closure of `tryMathMlToOmml` (route.ts 184-188):
convert, post-process (falling back to the raw output when post-processing
returns null), finalize. -/
def runConverted (conv : String → Option String) (domParse : String → Option XNode)
    (ser : XNode → String) (ml : String) : Option String :=
  (conv ml).map fun raw => finalizeOmmlString ((postProcessOmml domParse ser raw).getD raw)

/-- Source: `tryMathMlToOmml` (route.ts 180-211). -/
def tryMathMlToOmml (conv : String → Option String) (domParse : String → Option XNode)
    (ser : XNode → String) (mathML : String) : Option String :=
  let cleanedMathML := preCleanMathMlForOmml mathML
  let hasFrac := testMfracCI cleanedMathML
  match runConverted conv domParse ser cleanedMathML with
  | none => none
  | some first =>
    if !hasFrac || strHasSub first "<m:f" then some first
    else
      let stripped := stripFenceDelimiters cleanedMathML
      if stripped == cleanedMathML then some first
      else
        match runConverted conv domParse ser stripped with
        | none => none
        | some second => some (if second != "" then second else first)

/-- The
`/\\begin\{(?:bmatrix|pmatrix|Bmatrix|vmatrix|Vmatrix|matrix|smallmatrix)\}/`
test of route.ts 1275. -/
def hasMatrixLikeTex (tex : String) : Bool :=
  ["bmatrix", "pmatrix", "Bmatrix", "vmatrix", "Vmatrix", "matrix",
   "smallmatrix"].any fun e => strHasSub tex ("\\begin\x7b" ++ e ++ "\x7d")

/-- The `/\\frac\s*\{/` test of route.ts 1286. -/
def hasFracTex (tex : String) : Bool :=
  go tex.data
where
  go : List Char → Bool
    | [] => false
    | l@(_ :: rest) =>
      (startsWithList "\\frac".data l &&
        (match (l.drop 5).dropWhile jsWs with
         | c :: _ => c == Char.ofNat 0x7B
         | [] => false)) || go rest

/-- Source: `buildOmmlFromElement` (route.ts 1267-1313), parameterised over
the results of the HTML extraction helpers (`tex` is the extracted LaTeX,
`katexMathMl` the embedded MathML subtree, `displayMode` the class test of
route.ts 1268-1270) and over the external conversions (`texToMathMl` wraps
KaTeX, route.ts 111-124).  JavaScript truthiness tests on strings are
rendered as non-emptiness. -/
def buildOmmlFromElement (conv : String → Option String) (domParse : String → Option XNode)
    (ser : XNode → String) (texToMathMl : String → Bool → Option String)
    (displayMode : Bool) (tex : Option String) (katexMathMl : Option String) :
    Option String :=
  let hasMatrixLike :=
    match tex with
    | some t => t != "" && hasMatrixLikeTex t
    | none => false
  let mathMLFromDom := if !hasMatrixLike then katexMathMl else none
  let step1 : Option String :=
    match mathMLFromDom with
    | some ml =>
      match tryMathMlToOmml conv domParse ser ml with
      | some o => if o != "" then some o else none
      | none => none
    | none => none
  match step1 with
  | some o => some o
  | none =>
    let texPath : Option String :=
      match tex with
      | some t =>
        if t == "" then none
        else
          let normalized := normalizeDocxLatex t
          let hasFrac := hasFracTex t
          let attempt1 : Option String :=
            match texToMathMl normalized displayMode with
            | some regenerated =>
              if regenerated == "" then none
              else
                match tryMathMlToOmml conv domParse ser regenerated with
                | some o =>
                  if o != "" && (!hasFrac || strHasSub o "<m:f") then some o else none
                | none => none
            | none => none
          match attempt1 with
          | some o => some o
          | none =>
            if hasFrac then
              let stripped := stripLeftRight normalized
              if stripped != normalized then
                match texToMathMl stripped displayMode with
                | some regeneratedAlt =>
                  if regeneratedAlt == "" then none
                  else
                    match tryMathMlToOmml conv domParse ser regeneratedAlt with
                    | some o => if o != "" then some o else none
                    | none => none
                | none => none
              else none
            else none
      | none => none
    match texPath with
    | some o => some o
    | none =>
      match katexMathMl with
      | some ml =>
        if ml == "" then none
        else if (match mathMLFromDom with | some d => d == ml | none => false) then none
        else
          match tryMathMlToOmml conv domParse ser ml with
          | some o => if o != "" then some o else none
          | none => none
      | none => none

/-! ### The math context and placeholder tokens
(source: `MathContext`, route.ts 31-32; `createMathPlaceholder`,
route.ts 1317-1329) -/

/-- Source: `MathReplacement` (route.ts 31). -/
structure MathReplacement where
  token : String
  omml : String
  displayMode : Bool

/-- Source: `MathContext` (route.ts 32). -/
structure MathContext where
  nextId : Nat
  replacements : List MathReplacement

/-- ASCII digit character for a value below ten. -/
def natDigitChar (d : Nat) : Char :=
  Char.ofNat (48 + d)

/-- Decimal digits of a natural number (JavaScript `String(n)` for the
non-negative integers the counter takes); the fuel argument bounds the digit
count and the wrapper's `n + 1` always suffices. -/
def jsNatToStringAux : Nat → Nat → List Char
  | 0, _ => []
  | fuel + 1, n =>
    if n < 10 then [natDigitChar n]
    else jsNatToStringAux fuel (n / 10) ++ [natDigitChar (n % 10)]

/-- JavaScript `String(n)` for a natural number. -/
def jsNatToString (n : Nat) : String :=
  ⟨jsNatToStringAux (n + 1) n⟩

/-- JavaScript `s.padStart(6, "0")`. -/
def padStart6Zero (s : String) : String :=
  if s.data.length ≥ 6 then s else ⟨List.replicate (6 - s.data.length) '0' ++ s.data⟩

/-- The placeholder token of route.ts 1325. -/
def mathToken (n : Nat) : String :=
  "__MATH_" ++ padStart6Zero (jsNatToString n) ++ "__"

/-- Source: `createMathPlaceholder` (route.ts 1317-1329), parameterised over
the result of `buildOmmlFromElement` and the display-mode test: on a
successful conversion, mint the token of the current counter, bump the
counter and append the replacement triple; otherwise leave the context
untouched.  The returned token models the `TextRun` placeholder. -/
def createMathPlaceholder (ctx : MathContext) (ommlResult : Option String)
    (displayMode : Bool) : Option String × MathContext :=
  match ommlResult with
  | none => (none, ctx)
  | some omml =>
    let token := mathToken ctx.nextId
    (some token,
     { nextId := ctx.nextId + 1,
       replacements := ctx.replacements ++ [⟨token, omml, displayMode⟩] })

/-- Fold `createMathPlaceholder` over the math elements of one document
conversion (each given by its `buildOmmlFromElement` result and display
flag), threading the context as the source's tree walk does. -/
def processMathElements (ctx : MathContext) : List (Option String × Bool) → MathContext
  | [] => ctx
  | (o, d) :: rest => processMathElements (createMathPlaceholder ctx o d).2 rest

/-- The initial context of one document conversion (route.ts 1673). -/
def initialMathContext : MathContext :=
  { nextId := 1, replacements := [] }

/-! ### The token-splice patcher
(source: `patchDocxWithMath`, route.ts 1611-1658)

The zip packaging around the patch is an external boundary (JSZip); the
embedding works on the `word/document.xml` markup string the source reads
from and writes back into the archive. -/

/-- The namespace injection of route.ts 1620-1625: when the serialized
document does not yet declare the OMML namespace, add it to the first
`<w:document ...>` start tag (`/<w:document\b([^>]*)>/`, first occurrence). -/
def injectMathNamespaceAux : Nat → List Char → List Char
  | _, [] => []
  | 0, s => s
  | fuel + 1, s@(c :: rest) =>
    if startsWithList "<w:document".data s &&
        !(match s.drop 11 with | [] => false | c2 :: _ => jsWord c2) then
      let u := s.drop 11
      let g := u.takeWhile (· != '>')
      if g.length < u.length then
        "<w:document".data ++ g ++
          (" xmlns:m=\"" ++ M_NS ++ "\"").data ++ '>' :: u.drop (g.length + 1)
      else c :: injectMathNamespaceAux fuel rest
    else c :: injectMathNamespaceAux fuel rest

/-- The namespace check and injection of route.ts 1620-1625. -/
def injectMathNamespace (xml : String) : String :=
  if strHasSub xml ("xmlns:m=\"" ++ M_NS ++ "\"") then xml
  else ⟨injectMathNamespaceAux xml.data.length xml.data⟩

/-- One iteration of the replacement loop of route.ts 1634-1654: locate the
token, find the enclosing minimal `<w:r>...</w:r>` span around it, and splice
the cleaned OMML (wrapped in `m:oMathPara` for display mode) over the whole
run; on any lookup failure return the markup unchanged. -/
def patchStep (xml : String) (r : MathReplacement) : String :=
  match jsIndexOf xml r.token with
  | none => xml
  | some tokenIndex =>
    match jsLastIndexOf xml "<w:r" tokenIndex with
    | none => xml
    | some runStart =>
      match jsIndexOfFrom xml "</w:r>" tokenIndex with
      | none => xml
      | some runEnd =>
        let runClose := runEnd + 6
        let runSlice := jsSlice xml runStart runClose
        if !strHasSub runSlice r.token then xml
        else
          let safeOmml0 := stripDeclAndNs r.omml
          let safeOmml :=
            if r.displayMode && !strHasSub safeOmml0 "<m:oMathPara" then
              "<m:oMathPara>" ++ safeOmml0 ++ "</m:oMathPara>"
            else safeOmml0
          jsSlice xml 0 runStart ++ safeOmml ++ jsSliceFrom xml runClose

/-- The replacement loop of `patchDocxWithMath` over the namespace-injected
markup. -/
def patchLoop (xml : String) (rs : List MathReplacement) : String :=
  rs.foldl patchStep xml

/-- Source: `patchDocxWithMath` (route.ts 1611-1658) at the markup level: an
empty replacement list leaves the document untouched (the source returns the
unmodified buffer); otherwise the namespace is injected and every replacement
spliced in order. -/
def patchDocxWithMath (xml : String) (replacements : List MathReplacement) : String :=
  if replacements.isEmpty then xml
  else patchLoop (injectMathNamespace xml) replacements

/-! ### Predicates and observers used by the claim statements -/

/-- The failure condition of one splice iteration (route.ts 1635-1646): the
token is absent, no `<w:r` start precedes it, no `</w:r>` follows it, or the
sliced run does not contain the token.  `patchStep` leaves the markup
unchanged exactly in these cases. -/
def spliceLookupFails (xml : String) (r : MathReplacement) : Bool :=
  match jsIndexOf xml r.token with
  | none => true
  | some tokenIndex =>
    match jsLastIndexOf xml "<w:r" tokenIndex with
    | none => true
    | some runStart =>
      match jsIndexOfFrom xml "</w:r>" tokenIndex with
      | none => true
      | some runEnd => !strHasSub (jsSlice xml runStart (runEnd + 6)) r.token

mutual

/-- No script construct (`m:sSub`/`m:sSup`/`m:sSubSup`) anywhere in the
node. -/
def scriptFree : XNode → Bool
  | .text _ => true
  | .elem tag _ _ cs => !isScriptLocal (tagLocal tag) && scriptFreeList cs

/-- `scriptFree` over a node list. -/
def scriptFreeList : List XNode → Bool
  | [] => true
  | x :: xs => scriptFree x && scriptFreeList xs

end

mutual

/-- All nodes of the tree, the root first (pre-order). -/
def allNodes : XNode → List XNode
  | .text s => [XNode.text s]
  | .elem tag ns attrs cs => XNode.elem tag ns attrs cs :: allNodesList cs

/-- `allNodes` over a node list. -/
def allNodesList : List XNode → List XNode
  | [] => []
  | x :: xs => allNodes x ++ allNodesList xs

end

/-- Does the nary's first `m:naryPr` carry a first `m:limLoc` with value
`undOvr`? -/
def hasUndOvrLimLoc (n : XNode) : Bool :=
  match firstElemChildWithLocal n "naryPr" with
  | none => false
  | some pr =>
    match firstElemChildWithLocal pr "limLoc" with
    | none => false
    | some l => getValAttr l == "undOvr"

/-- Is the node harmless for the limit-placement property: not an `m:nary`
over one of the given glyphs, or carrying the `undOvr` limit location? -/
def naryLimOk (glyphs : List String) (n : XNode) : Bool :=
  !(isM n "nary" && glyphs.contains (naryChrVal n)) || hasUndOvrLimLoc n

/-- Every `m:nary` of the tree whose operator character lies in the glyph
list has its limit location forced to `undOvr`. -/
def integralNariesUndOvr (glyphs : List String) (t : XNode) : Bool :=
  (allNodes t).all (naryLimOk glyphs)

/-- The glyph list named by the claim (and by spec §4.4 rule 5): single
integral U+222B, double integral U+222C, triple integral U+222D, contour
integral U+222E.  The source's set `integralLimGlyphs` differs: it has
U+222F and U+2230 instead of U+222C and U+222D. -/
def claimIntegralGlyphs : List String :=
  [⟨[Char.ofNat 0x222B]⟩, ⟨[Char.ofNat 0x222C]⟩, ⟨[Char.ofNat 0x222D]⟩, ⟨[Char.ofNat 0x222E]⟩]

/-- Decimal value of a digit-character list (used to invert
`jsNatToString`). -/
def decDigitsVal (l : List Char) : Nat :=
  l.foldl (fun a c => a * 10 + (c.toNat - 48)) 0

/-- The number of successfully converted math elements in a processed batch
(those with a non-null `buildOmmlFromElement` result). -/
def countConverted (inputs : List (Option String × Bool)) : Nat :=
  (inputs.filter fun p => p.1.isSome).length

/-!
## Theorems

First the general lemmas about the embedding, then one theorem per claim of
the specification (with witnesses and counterexamples where required).
-/

/-- C2: the claim states that `normalizeDocxLatex` rewrites
`\begin{bmatrix}B\end{bmatrix}` to `\left[\begin{matrix}B\end{matrix}\right]`
with a single backslash before each command.  The code instead produces a
DOUBLE backslash before each command, because the `String.raw` replacement
templates keep both backslashes and `String.prototype.replace` copies them
verbatim: the second conjunct shows the produced string differs from the
claimed one.  This contradicts the evident intent (the non-raw replacement
templates in the same chain produce single backslashes, and doubled
backslashes are line breaks for the downstream KaTeX call), so the code, not
the claim, is wrong. -/
theorem normalizeDocxLatex_bmatrix_doubles_backslashes :
    normalizeDocxLatex "\\begin\x7bbmatrix\x7dB\\end\x7bbmatrix\x7d"
      = "\\\\left[\\\\begin\x7bmatrix\x7dB\\\\end\x7bmatrix\x7d\\\\right]" ∧
    ("\\\\left[\\\\begin\x7bmatrix\x7dB\\\\end\x7bmatrix\x7d\\\\right]" : String)
      ≠ "\\left[\\begin\x7bmatrix\x7dB\\end\x7bmatrix\x7d\\right]" :=
  ⟨rfl, by decide⟩

/-- C4: for a container holding exactly the three consecutive runs `∫`, `0`
and `∞`, the integral-reconstruction pass `fixRunIntegrals` replaces them by
exactly one `m:nary` whose `m:sub` holds a run with text `0`, whose `m:sup`
holds a run with text `∞`, whose `m:limLoc` is `undOvr`, and whose `m:e`
integrand slot is empty. -/
theorem fixRunIntegrals_reconstructs_integral_triple :
    fixRunIntegrals
      (XNode.elem "root" none []
        [mkM "m:r" [] [mkM "m:t" [] [XNode.text intStr]],
         mkM "m:r" [] [mkM "m:t" [] [XNode.text "0"]],
         mkM "m:r" [] [mkM "m:t" [] [XNode.text infStr]]])
      = XNode.elem "root" none []
          [XNode.elem "m:nary" (some M_NS) []
            [XNode.elem "m:naryPr" (some M_NS) []
              [XNode.elem "m:chr" (some M_NS) [("m:val", intStr)] [],
               XNode.elem "m:limLoc" (some M_NS) [("m:val", "undOvr")] [],
               XNode.elem "m:grow" (some M_NS) [("m:val", "1")] [],
               XNode.elem "m:subHide" (some M_NS) [("m:val", "off")] [],
               XNode.elem "m:supHide" (some M_NS) [("m:val", "off")] []],
             XNode.elem "m:sub" (some M_NS) []
               [XNode.elem "m:r" (some M_NS) []
                 [XNode.elem "m:t" (some M_NS) [("xml:space", "preserve")]
                   [XNode.text "0"]]],
             XNode.elem "m:sup" (some M_NS) []
               [XNode.elem "m:r" (some M_NS) []
                 [XNode.elem "m:t" (some M_NS) [("xml:space", "preserve")]
                   [XNode.text infStr]]],
             XNode.elem "m:e" (some M_NS) [] []]] :=
  rfl

/-- C7: for the serialized markup `<w:r><w:t>__MATH_000001__</w:t></w:r>` and
the single replacement of that token by `<m:r><m:t>x</m:t></m:r>`, the splice
patcher replaces the entire `<w:r>...</w:r>` run by the OMML fragment and no
occurrence of the token remains; with the display flag set, the fragment is
additionally wrapped in `m:oMathPara`. -/
theorem patchDocxWithMath_splices_run :
    patchDocxWithMath "<w:r><w:t>__MATH_000001__</w:t></w:r>"
        [⟨"__MATH_000001__", "<m:r><m:t>x</m:t></m:r>", false⟩]
      = "<m:r><m:t>x</m:t></m:r>" ∧
    strHasSub
        (patchDocxWithMath "<w:r><w:t>__MATH_000001__</w:t></w:r>"
          [⟨"__MATH_000001__", "<m:r><m:t>x</m:t></m:r>", false⟩])
        "__MATH_000001__" = false ∧
    patchDocxWithMath "<w:r><w:t>__MATH_000001__</w:t></w:r>"
        [⟨"__MATH_000001__", "<m:r><m:t>x</m:t></m:r>", true⟩]
      = "<m:oMathPara><m:r><m:t>x</m:t></m:r></m:oMathPara>" :=
  ⟨rfl, rfl, rfl⟩

/-- One splice iteration leaves the markup unchanged when its lookups fail. -/
theorem patchStep_of_lookupFails (xml : String) (r : MathReplacement)
    (h : spliceLookupFails xml r = true) : patchStep xml r = xml := by
  unfold patchStep
  unfold spliceLookupFails at h
  cases h1 : jsIndexOf xml r.token with
  | none => rfl
  | some ti =>
    simp only [h1] at h
    dsimp only
    cases h2 : jsLastIndexOf xml "<w:r" ti with
    | none => rfl
    | some runStart =>
      simp only [h2] at h
      dsimp only
      cases h3 : jsIndexOfFrom xml "</w:r>" ti with
      | none => rfl
      | some runEnd =>
        simp only [h3] at h
        simp only [Bool.not_eq_true'] at h
        simp [h]

/-- C8: a replacement whose token does not occur in the markup as it stands
when that replacement is processed, or whose enclosing `<w:r>...</w:r>` run
cannot be located around the token, is skipped without error and without any
change to the markup, and all other replacements of the list are still
processed exactly as they would be without it. -/
theorem patchLoop_skips_failed_lookup (xml : String) (rs1 rs2 : List MathReplacement)
    (r : MathReplacement) (h : spliceLookupFails (patchLoop xml rs1) r = true) :
    patchLoop xml (rs1 ++ r :: rs2) = patchLoop xml (rs1 ++ rs2) := by
  unfold patchLoop at h ⊢
  rw [List.foldl_append, List.foldl_append, List.foldl_cons,
    patchStep_of_lookupFails _ _ h]

/-- Witness for C8: with one absent token ahead of one present token, the
absent one is skipped and the present one is still spliced. -/
theorem patchLoop_skips_failed_lookup_witness :
    spliceLookupFails (patchLoop "<w:r><w:t>__MATH_000002__</w:t></w:r>" [])
        ⟨"__MATH_000001__", "<m:r><m:t>y</m:t></m:r>", false⟩ = true ∧
    patchLoop "<w:r><w:t>__MATH_000002__</w:t></w:r>"
        ([] ++ ⟨"__MATH_000001__", "<m:r><m:t>y</m:t></m:r>", false⟩ ::
          [⟨"__MATH_000002__", "<m:r><m:t>x</m:t></m:r>", false⟩])
      = patchLoop "<w:r><w:t>__MATH_000002__</w:t></w:r>"
        ([] ++ [⟨"__MATH_000002__", "<m:r><m:t>x</m:t></m:r>", false⟩]) :=
  ⟨rfl, patchLoop_skips_failed_lookup _ _ _ _ rfl⟩

/-- C10: on every raw converter output containing the substring `<m:f`, the
two post-processors agree: `postProcessOmml` skips the delimiter-promotion
step for such inputs and its fraction-vanished fallback recomputes the very
same pass sequence, so it can never differ from
`postProcessOmmlWithoutDelimiters`. -/
theorem postProcessOmml_eq_withoutDelimiters (domParse : String → Option XNode)
    (ser : XNode → String) (omml : String) (h : strHasSub omml "<m:f" = true) :
    postProcessOmml domParse ser omml = postProcessOmmlWithoutDelimiters domParse ser omml := by
  have hW :
      postProcessOmmlWithoutDelimiters domParse ser omml
        = match parseOmmlFragment domParse omml with
          | none => none
          | some root =>
            some (jsTrim (serializeOmmlChildren ser (repairFinishPasses (repairCommonPasses root)))) :=
    rfl
  unfold postProcessOmml
  cases hp : parseOmmlFragment domParse omml with
  | none => rw [hW, hp]
  | some root =>
    rw [hW, hp]
    simp only [h, Bool.not_true, Bool.false_eq_true, if_false, Bool.true_and]
    cases hX : strHasSub (jsTrim (serializeOmmlChildren ser (repairFinishPasses (repairCommonPasses root)))) "<m:f" with
    | false =>
      simp only [hX, Bool.not_false, if_true]
      rfl
    | true =>
      simp only [hX, Bool.not_true, Bool.false_eq_true, if_false]

/-- Witness for C10 at a fraction-marked input with a concrete parser and
serializer. -/
theorem postProcessOmml_eq_withoutDelimiters_witness :
    strHasSub "<m:f></m:f>" "<m:f" = true ∧
    postProcessOmml
        (fun _ => some (XNode.elem "root" none [] [mkM "m:f" [] []]))
        serializeXml "<m:f></m:f>"
      = postProcessOmmlWithoutDelimiters
        (fun _ => some (XNode.elem "root" none [] [mkM "m:f" [] []]))
        serializeXml "<m:f></m:f>" :=
  ⟨rfl, postProcessOmml_eq_withoutDelimiters _ _ _ rfl⟩

/-- Digit characters have the expected code points. -/
theorem natDigitChar_toNat : ∀ d, d < 10 → (natDigitChar d).toNat = 48 + d := by decide

/-- Nonzero digits are not the zero character. -/
theorem natDigitChar_ne_zeroChar : ∀ d, 1 ≤ d → d < 10 → natDigitChar d ≠ '0' := by decide

/-- Appending one digit multiplies the decimal value by ten. -/
theorem decDigitsVal_append_digit (l : List Char) (c : Char) :
    decDigitsVal (l ++ [c]) = decDigitsVal l * 10 + (c.toNat - 48) := by
  simp [decDigitsVal, List.foldl_append]

/-- With sufficient fuel, reading the decimal digits back yields the number:
`jsNatToString` is injective. -/
theorem jsNatToStringAux_roundtrip :
    ∀ fuel n, n + 1 ≤ fuel → decDigitsVal (jsNatToStringAux fuel n) = n := by
  intro fuel
  induction fuel with
  | zero => intro n h; omega
  | succ f ih =>
    intro n h
    unfold jsNatToStringAux
    by_cases h10 : n < 10
    · have hc := natDigitChar_toNat n h10
      simp only [h10, if_true, decDigitsVal, List.foldl_cons, List.foldl_nil]
      omega
    · simp only [h10, if_false]
      rw [decDigitsVal_append_digit, ih (n / 10) (by omega)]
      have hc := natDigitChar_toNat (n % 10) (by omega)
      omega

/-- With sufficient fuel the digit list is nonempty. -/
theorem jsNatToStringAux_ne_nil :
    ∀ fuel n, n + 1 ≤ fuel → jsNatToStringAux fuel n ≠ [] := by
  intro fuel
  induction fuel with
  | zero => intro n h; omega
  | succ f _ =>
    intro n _
    unfold jsNatToStringAux
    by_cases h10 : n < 10
    · simp [h10]
    · simp [h10]

/-- For a positive number the leading decimal digit is not zero. -/
theorem jsNatToStringAux_head_ne_zero :
    ∀ fuel n, n + 1 ≤ fuel → 1 ≤ n →
      ∀ c, (jsNatToStringAux fuel n).head? = some c → c ≠ '0' := by
  intro fuel
  induction fuel with
  | zero => intro n h; omega
  | succ f ih =>
    intro n hf h1 c hc
    unfold jsNatToStringAux at hc
    by_cases h10 : n < 10
    · simp only [h10, if_true, List.head?_cons, Option.some.injEq] at hc
      exact hc ▸ natDigitChar_ne_zeroChar n h1 h10
    · simp only [h10, if_false] at hc
      cases haux : jsNatToStringAux f (n / 10) with
      | nil => exact absurd haux (jsNatToStringAux_ne_nil f (n / 10) (by omega))
      | cons a as =>
        rw [haux, List.cons_append, List.head?_cons, Option.some.injEq] at hc
        exact hc ▸ ih (n / 10) (by omega) (by omega) a (by rw [haux]; rfl)

/-- Dropping the padding zeros recovers a digit list with nonzero head. -/
theorem dropWhile_zeros_replicate (k : Nat) (l : List Char)
    (hl : ∀ c, l.head? = some c → c ≠ '0') :
    (List.replicate k '0' ++ l).dropWhile (· == '0') = l := by
  induction k with
  | zero =>
    cases l with
    | nil => rfl
    | cons c cs =>
      have hb : (c == '0') = false := by simpa using hl c rfl
      simp [List.dropWhile, hb]
  | succ k ih => simpa [List.replicate_succ] using ih

/-- `padStart6Zero` always takes the replicate-prefix form. -/
theorem padStart6Zero_eq (s : String) :
    padStart6Zero s = ⟨List.replicate (6 - s.data.length) '0' ++ s.data⟩ := by
  unfold padStart6Zero
  by_cases h : s.data.length ≥ 6
  · rw [if_pos h]
    have h0 : 6 - s.data.length = 0 := by omega
    rw [h0]
    cases s
    rfl
  · rw [if_neg h]

/-- `padStart6Zero` is injective on strings whose head is not a zero digit. -/
theorem padStart6Zero_inj (p q : String)
    (hp : ∀ c, p.data.head? = some c → c ≠ '0')
    (hq : ∀ c, q.data.head? = some c → c ≠ '0')
    (h : padStart6Zero p = padStart6Zero q) : p = q := by
  rw [padStart6Zero_eq, padStart6Zero_eq] at h
  have hdata := congrArg String.data h
  simp only at hdata
  have h2 := congrArg (List.dropWhile (· == '0')) hdata
  rw [dropWhile_zeros_replicate _ _ hp, dropWhile_zeros_replicate _ _ hq] at h2
  cases p
  cases q
  simp only at h2
  rw [h2]

/-- The placeholder tokens of two distinct positive counter values differ. -/
theorem mathToken_inj (m n : Nat) (hm : 1 ≤ m) (hn : 1 ≤ n)
    (h : mathToken m = mathToken n) : m = n := by
  unfold mathToken at h
  have hdata := congrArg String.data h
  simp only [String.data_append] at hdata
  rw [List.append_assoc, List.append_assoc] at hdata
  have h1 := List.append_cancel_left hdata
  have h2 := List.append_cancel_right h1
  have hpq : padStart6Zero (jsNatToString m) = padStart6Zero (jsNatToString n) := by
    apply String.ext
    exact h2
  have hs : jsNatToString m = jsNatToString n := by
    apply padStart6Zero_inj _ _ ?_ ?_ hpq
    · intro c hc
      exact jsNatToStringAux_head_ne_zero (m + 1) m (by omega) hm c hc
    · intro c hc
      exact jsNatToStringAux_head_ne_zero (n + 1) n (by omega) hn c hc
  have hv := congrArg (fun s : String => decDigitsVal s.data) hs
  simpa [jsNatToString, jsNatToStringAux_roundtrip (m + 1) m (by omega),
    jsNatToStringAux_roundtrip (n + 1) n (by omega)] using hv

/-- Systematic description of a processed batch: starting from counter `n`,
the token list extends by the tokens of the successive counter values, one
per successful conversion. -/
theorem processMathElements_tokens :
    ∀ (inputs : List (Option String × Bool)) (n : Nat) (rs : List MathReplacement),
      ((processMathElements ⟨n, rs⟩ inputs).replacements).map MathReplacement.token
        = rs.map MathReplacement.token ++ (List.range' n (countConverted inputs)).map mathToken := by
  intro inputs
  induction inputs with
  | nil => intro n rs; simp [processMathElements, countConverted]
  | cons p rest ih =>
    intro n rs
    obtain ⟨o, d⟩ := p
    cases o with
    | none =>
      have hc : countConverted ((none, d) :: rest) = countConverted rest := by
        simp [countConverted]
      rw [hc]
      exact ih n rs
    | some s =>
      have hc : countConverted ((some s, d) :: rest) = countConverted rest + 1 := by
        simp [countConverted]
      rw [hc]
      show ((processMathElements ⟨n + 1, rs ++ [⟨mathToken n, s, d⟩]⟩ rest).replacements).map
          MathReplacement.token = _
      have hih := ih (n + 1) (rs ++ [⟨mathToken n, s, d⟩])
      rw [hih]
      have hr : List.range' n (countConverted rest + 1)
          = n :: List.range' (n + 1) (countConverted rest) := by
        simp [List.range']
      rw [hr]
      simp

/-- C9: within one math context initialised as the document conversion does
(counter 1, empty list), every successful conversion appends exactly one
replacement whose token comes from the strictly increasing counter, so after
any batch the context holds as many replacements as successful conversions
and their tokens are pairwise distinct. -/
theorem createMathPlaceholder_tokens_distinct (inputs : List (Option String × Bool)) :
    ((processMathElements initialMathContext inputs).replacements.map
        MathReplacement.token).Nodup ∧
    (processMathElements initialMathContext inputs).replacements.length
      = countConverted inputs := by
  have hspec := processMathElements_tokens inputs 1 []
  constructor
  · show ((processMathElements ⟨1, []⟩ inputs).replacements.map MathReplacement.token).Nodup
    rw [hspec]
    simp only [List.map_nil, List.nil_append]
    apply List.Nodup.map_on
    · intro x hx y hy hxy
      rw [List.mem_range'] at hx hy
      exact mathToken_inj x y (by omega) (by omega) hxy
    · exact List.nodup_range' 1 (countConverted inputs)
  · have hlen := congrArg List.length hspec
    simpa using hlen

/-- A successful element split decomposes the list. -/
theorem splitToNextElem_eq :
    ∀ (l m : List XNode) (e : XNode) (r : List XNode),
      splitToNextElem l = some (m, e, r) → l = m ++ e :: r := by
  intro l
  induction l with
  | nil => intro m e r h; simp [splitToNextElem] at h
  | cons x xs ih =>
    intro m e r h
    cases x with
    | text s =>
      simp only [splitToNextElem, Option.map_eq_some'] at h
      obtain ⟨⟨m', e', r'⟩, hsp, heq⟩ := h
      cases heq
      have := ih _ _ _ hsp
      rw [this]
      rfl
    | elem tag ns attrs cs =>
      simp only [splitToNextElem, Option.some.injEq] at h
      cases h
      rfl

/-- A successful rewrite attempt strictly shortens the list. -/
theorem scanPromoteHead_length (x : XNode) (rest l' : List XNode)
    (h : scanPromoteHead x rest = some l') : l'.length < (x :: rest).length := by
  unfold scanPromoteHead at h
  cases h1 : runTextIfSingleChar x with
  | none => simp [h1] at h
  | some oc =>
    simp only [h1] at h
    cases h2 : splitToNextElem rest with
    | none => simp [h2] at h
    | some t1 =>
      obtain ⟨mid1, b, rest2⟩ := t1
      simp only [h2] at h
      by_cases hb : isTall b
      · simp only [hb, Bool.not_true, Bool.false_eq_true, if_false] at h
        cases h3 : splitToNextElem rest2 with
        | none => simp [h3] at h
        | some t2 =>
          obtain ⟨mid2, c, rest3⟩ := t2
          simp only [h3] at h
          cases h4 : runTextIfSingleChar c with
          | none => simp [h4] at h
          | some cc =>
            simp only [h4] at h
            by_cases h5 : promotePairMatch oc cc
            · simp only [h5, if_true, Option.some.injEq] at h
              have e2 := splitToNextElem_eq rest mid1 b rest2 h2
              have e3 := splitToNextElem_eq rest2 mid2 c rest3 h3
              rw [← h]
              rw [e2, e3]
              simp only [List.length_cons, List.length_append]
              omega
            · simp [h5] at h
      · simp [hb] at h

/-- A successful scan strictly shortens the list. -/
theorem scanPromote_length :
    ∀ (l l' : List XNode), scanPromote l = some l' → l'.length < l.length := by
  intro l
  induction l with
  | nil => intro l' h; simp [scanPromote] at h
  | cons x rest ih =>
    intro l' h
    unfold scanPromote at h
    cases hh : scanPromoteHead x rest with
    | some l2 =>
      simp only [hh, Option.some.injEq] at h
      rw [← h]
      exact scanPromoteHead_length x rest l2 hh
    | none =>
      simp only [hh] at h
      cases hs : scanPromote rest with
      | none => simp [hs] at h
      | some r2 =>
        simp only [hs, Option.map_some', Option.some.injEq] at h
        rw [← h]
        have := ih r2 hs
        simp only [List.length_cons]
        omega

/-- With fuel exceeding the list length, the promotion loop reaches its
fixpoint: no further triple matches. -/
theorem promoteLoop_fix :
    ∀ (fuel : Nat) (l : List XNode), l.length < fuel →
      scanPromote (promoteLoop fuel l) = none := by
  intro fuel
  induction fuel with
  | zero => intro l h; omega
  | succ f ih =>
    intro l h
    unfold promoteLoop
    cases hs : scanPromote l with
    | none => simp [hs]
    | some l2 =>
      simp only [hs]
      have hlen := scanPromote_length l l2 hs
      exact ih l2 (by omega)

/-- C6: generic delimiter promotion is idempotent; after one application of
`promoteDelimitersInContainer` no open-run / tall-construct / matching
close-run triple remains among the container's children, so a second
application rewrites nothing. -/
theorem promoteDelimitersInContainer_idempotent (t : XNode) :
    promoteDelimitersInContainer (promoteDelimitersInContainer t)
      = promoteDelimitersInContainer t := by
  cases t with
  | text s => rfl
  | elem tag ns attrs cs =>
    have hnone := promoteLoop_fix (cs.length + 1) cs (by omega)
    show XNode.elem tag ns attrs
        (promoteLoop ((promoteLoop (cs.length + 1) cs).length + 1)
          (promoteLoop (cs.length + 1) cs))
      = XNode.elem tag ns attrs (promoteLoop (cs.length + 1) cs)
    generalize promoteLoop (cs.length + 1) cs = l1 at hnone ⊢
    congr 1
    unfold promoteLoop
    rw [hnone]

/-- `scriptFreeList` distributes over append. -/
theorem scriptFreeList_append (l1 l2 : List XNode) :
    scriptFreeList (l1 ++ l2) = (scriptFreeList l1 && scriptFreeList l2) := by
  induction l1 with
  | nil => simp [scriptFreeList]
  | cons x xs ih => simp [scriptFreeList, ih, Bool.and_assoc]

mutual

/-- A node with no script construct anywhere is left unchanged by one repair
sweep. -/
theorem repairScriptsNode_of_scriptFree :
    ∀ n : XNode, scriptFree n = true → repairScriptsNode n = [n]
  | .text _, _ => rfl
  | .elem tag ns attrs cs, h => by
    rw [scriptFree, Bool.and_eq_true, Bool.not_eq_true'] at h
    have hinv : scriptInvalid (XNode.elem tag ns attrs cs) = false := by
      simp [scriptInvalid, isElem, tagOf, h.1]
    rw [repairScriptsNode, hinv]
    simp [repairScriptsList_of_scriptFree cs h.2]

/-- A script-free node list is left unchanged by one repair sweep. -/
theorem repairScriptsList_of_scriptFree :
    ∀ l : List XNode, scriptFreeList l = true → repairScriptsList l = l
  | [], _ => rfl
  | x :: xs, h => by
    rw [scriptFreeList, Bool.and_eq_true] at h
    rw [repairScriptsList, repairScriptsNode_of_scriptFree x h.1,
        repairScriptsList_of_scriptFree xs h.2]
    rfl

end

/-- One repair sweep distributes over append. -/
theorem repairScriptsList_append (l1 l2 : List XNode) :
    repairScriptsList (l1 ++ l2) = repairScriptsList l1 ++ repairScriptsList l2 := by
  induction l1 with
  | nil => rfl
  | cons x xs ih =>
    rw [List.cons_append, repairScriptsList, ih, repairScriptsList, List.append_assoc]

/-- `countElems` distributes over append. -/
theorem countElems_append (l1 l2 : List XNode) :
    countElems (l1 ++ l2) = countElems l1 + countElems l2 := by
  simp [countElems, List.filter_append]

/-- `unwrapToBase` on a child list with no `m:e` element: nothing remains. -/
theorem repairScriptsBase_of_no_e :
    ∀ l : List XNode, (l.any fun c => isElem c && isM c "e") = false →
      repairScriptsBase l = []
  | [], _ => rfl
  | .text s :: xs, h => by
    rw [repairScriptsBase]
    exact repairScriptsBase_of_no_e xs (by simpa [isElem] using h)
  | .elem t n a k :: xs, h => by
    rw [List.any_cons, Bool.or_eq_false_iff] at h
    have hm : isM (XNode.elem t n a k) "e" = false := by
      simpa [isElem] using h.1
    rw [repairScriptsBase, hm]
    simpa using repairScriptsBase_of_no_e xs h.2

/-- `unwrapToBase` on a child list whose first `m:e` element is `e`: the
repaired children of `e` remain. -/
theorem repairScriptsBase_of_find :
    ∀ l : List XNode, ∀ e : XNode,
      (l.find? fun c => isElem c && isM c "e") = some e →
      repairScriptsBase l = repairScriptsList (childrenOf e)
  | [], e, h => by simp [List.find?] at h
  | .text s :: xs, e, h => by
    rw [List.find?_cons] at h
    simp only [isElem, Bool.false_and] at h
    rw [repairScriptsBase]
    exact repairScriptsBase_of_find xs e h
  | .elem t n a k :: xs, e, h => by
    rw [List.find?_cons] at h
    cases hm : isM (XNode.elem t n a k) "e" with
    | true =>
      simp only [isElem, Bool.true_and, hm] at h
      cases h
      rw [repairScriptsBase, hm]
      rfl
    | false =>
      simp only [isElem, Bool.true_and, hm] at h
      rw [repairScriptsBase, hm]
      simpa using repairScriptsBase_of_find xs e h

/-- C5: for a script construct (`m:sSub`, `m:sSup` or `m:sSubSup`) sitting
among otherwise script-free siblings: (a) if it lacks an `m:e` base child,
`repairInvalidScripts` removes the construct entirely and the parent's
element-child count drops by exactly one; (b) if it has an `m:e` base child
(first such child `eNode`, with script-free content) but lacks its required
`m:sub` and/or `m:sup` child, the construct is replaced in place by the
children of that `m:e`. -/
theorem repairInvalidScripts_unwraps_invalid_scripts
    (ptag : String) (pns : Option String) (pattrs : List (String × String))
    (pre post : List XNode)
    (xtag : String) (xns : Option String) (xattrs : List (String × String))
    (xcs : List XNode)
    (hx : isScriptLocal (tagLocal xtag) = true)
    (hpre : scriptFreeList pre = true) (hpost : scriptFreeList post = true) :
    (hasElemChildLocal (XNode.elem xtag xns xattrs xcs) "e" = false →
      repairInvalidScripts
          (XNode.elem ptag pns pattrs (pre ++ XNode.elem xtag xns xattrs xcs :: post))
        = XNode.elem ptag pns pattrs (pre ++ post) ∧
      countElems (pre ++ post) + 1
        = countElems (pre ++ XNode.elem xtag xns xattrs xcs :: post)) ∧
    (∀ eNode : XNode,
      firstElemChildWithLocal (XNode.elem xtag xns xattrs xcs) "e" = some eNode →
      ((tagLocal xtag = "sSub" ∧
          hasElemChildLocal (XNode.elem xtag xns xattrs xcs) "sub" = false) ∨
       (tagLocal xtag = "sSup" ∧
          hasElemChildLocal (XNode.elem xtag xns xattrs xcs) "sup" = false) ∨
       (tagLocal xtag = "sSubSup" ∧
          (hasElemChildLocal (XNode.elem xtag xns xattrs xcs) "sub" = false ∨
           hasElemChildLocal (XNode.elem xtag xns xattrs xcs) "sup" = false))) →
      scriptFreeList (childrenOf eNode) = true →
      repairInvalidScripts
          (XNode.elem ptag pns pattrs (pre ++ XNode.elem xtag xns xattrs xcs :: post))
        = XNode.elem ptag pns pattrs (pre ++ childrenOf eNode ++ post)) := by
  constructor
  · intro hE
    have hinv : scriptInvalid (XNode.elem xtag xns xattrs xcs) = true := by
      simp [scriptInvalid, isElem, tagOf, hx, hE]
    have hnode : repairScriptsNode (XNode.elem xtag xns xattrs xcs) = [] := by
      rw [repairScriptsNode, hinv]
      simpa using repairScriptsBase_of_no_e xcs hE
    have hlist : repairScriptsList
        (pre ++ XNode.elem xtag xns xattrs xcs :: post) = pre ++ post := by
      rw [repairScriptsList_append, repairScriptsList, hnode,
          repairScriptsList_of_scriptFree pre hpre,
          repairScriptsList_of_scriptFree post hpost]
      rfl
    have hfree : scriptFreeList (pre ++ post) = true := by
      rw [scriptFreeList_append, hpre, hpost]; rfl
    constructor
    · show XNode.elem ptag pns pattrs
          (repairScriptsList (repairScriptsList
            (pre ++ XNode.elem xtag xns xattrs xcs :: post)))
        = XNode.elem ptag pns pattrs (pre ++ post)
      rw [hlist, repairScriptsList_of_scriptFree _ hfree]
    · rw [countElems_append, countElems_append]
      simp [countElems, List.filter_cons, isElem]
      omega
  · intro eNode hfind hmiss hEfree
    have hasE : hasElemChildLocal (XNode.elem xtag xns xattrs xcs) "e" = true := by
      have hfind' : (xcs.find? fun c => isElem c && isM c "e") = some eNode := hfind
      have hmem := List.mem_of_find?_eq_some hfind'
      have hp := List.find?_some hfind'
      exact List.any_eq_true.mpr ⟨eNode, hmem, hp⟩
    have hinv : scriptInvalid (XNode.elem xtag xns xattrs xcs) = true := by
      rcases hmiss with ⟨ht, hs⟩ | ⟨ht, hs⟩ | ⟨ht, hs | hs⟩ <;>
        simp [scriptInvalid, isElem, tagOf, hx, hasE, ht, hs,
          (by decide : isScriptLocal "sSub" = true),
          (by decide : isScriptLocal "sSup" = true),
          (by decide : isScriptLocal "sSubSup" = true),
          (by decide : (("sSup" : String) == "sSub") = false),
          (by decide : (("sSubSup" : String) == "sSub") = false),
          (by decide : (("sSubSup" : String) == "sSup") = false)]
    have hnode : repairScriptsNode (XNode.elem xtag xns xattrs xcs)
        = childrenOf eNode := by
      rw [repairScriptsNode, hinv]
      simp only [if_true]
      rw [repairScriptsBase_of_find xcs eNode hfind,
          repairScriptsList_of_scriptFree _ hEfree]
    have hlist : repairScriptsList
        (pre ++ XNode.elem xtag xns xattrs xcs :: post)
        = pre ++ childrenOf eNode ++ post := by
      rw [repairScriptsList_append, repairScriptsList, hnode,
          repairScriptsList_of_scriptFree pre hpre,
          repairScriptsList_of_scriptFree post hpost, List.append_assoc]
    have hfree : scriptFreeList (pre ++ childrenOf eNode ++ post) = true := by
      rw [scriptFreeList_append, scriptFreeList_append, hpre, hpost, hEfree]; rfl
    show XNode.elem ptag pns pattrs
        (repairScriptsList (repairScriptsList
          (pre ++ XNode.elem xtag xns xattrs xcs :: post)))
      = XNode.elem ptag pns pattrs (pre ++ childrenOf eNode ++ post)
    rw [hlist, repairScriptsList_of_scriptFree _ hfree]

/-- C5 witness: at a concrete `m:sSub` with no base child the construct is
removed and the element count drops from one to zero; at a concrete `m:sSub`
with a base child but no `m:sub` child the construct is replaced by the base
content. -/
theorem repairInvalidScripts_unwraps_invalid_scripts_witness :
    repairInvalidScripts (XNode.elem "root" none [] [mkM "m:sSub" [] []])
      = XNode.elem "root" none [] [] ∧
    countElems ([] : List XNode) + 1 = countElems [mkM "m:sSub" [] []] ∧
    repairInvalidScripts
        (XNode.elem "root" none []
          [mkM "m:sSub" [] [mkM "m:e" [] [makeRunWithText "y"]]])
      = XNode.elem "root" none [] [makeRunWithText "y"] := by
  have h1 := (repairInvalidScripts_unwraps_invalid_scripts "root" none [] [] []
      "m:sSub" (some M_NS) [] [] rfl rfl rfl).1 rfl
  have h2 := (repairInvalidScripts_unwraps_invalid_scripts "root" none [] [] []
      "m:sSub" (some M_NS) [] [mkM "m:e" [] [makeRunWithText "y"]] rfl rfl rfl).2
      (mkM "m:e" [] [makeRunWithText "y"]) rfl (Or.inl ⟨rfl, rfl⟩) rfl
  exact ⟨h1.1, h1.2, h2⟩

/-- `allNodesList` distributes over append. -/
theorem allNodesList_append (l1 l2 : List XNode) :
    allNodesList (l1 ++ l2) = allNodesList l1 ++ allNodesList l2 := by
  induction l1 with
  | nil => rfl
  | cons x xs ih => rw [List.cons_append, allNodesList, ih, allNodesList, List.append_assoc]

/-- A node that is no `m:nary` satisfies the limit-placement property. -/
theorem naryLimOk_of_not_nary (glyphs : List String) (n : XNode)
    (h : isM n "nary" = false) : naryLimOk glyphs n = true := by
  simp [naryLimOk, h]

/-- A node with the `undOvr` limit location satisfies the limit-placement
property. -/
theorem naryLimOk_of_undOvr (glyphs : List String) (n : XNode)
    (h : hasUndOvrLimLoc n = true) : naryLimOk glyphs n = true := by
  simp [naryLimOk, h]

/-- After `setAttr`, the first binding of the written name holds the written
value. -/
theorem setAttr_find? (k v : String) :
    ∀ al : List (String × String),
      ((setAttr k v al).find? fun p => p.1 == k) = some (k, v)
  | [] => by simp [setAttr, List.find?]
  | (k', v') :: rest => by
    rw [setAttr]
    cases hk : (k' == k) with
    | true =>
      rw [if_pos rfl, List.find?_cons]
      simp
    | false =>
      rw [if_neg (by simp), List.find?_cons]
      simp only [hk]
      exact setAttr_find? k v rest

/-- Replacing the first matching element by a still-matching node moves the
first match to the replaced node. -/
theorem find?_replaceFirstElemWithLocal (loc : String) (f : XNode → XNode) :
    ∀ l : List XNode, ∀ pr : XNode,
      (l.find? fun c => isElem c && isM c loc) = some pr →
      (isElem (f pr) && isM (f pr) loc) = true →
      ((replaceFirstElemWithLocal loc f l).find? fun c => isElem c && isM c loc)
        = some (f pr)
  | [], pr, h, _ => by simp [List.find?] at h
  | x :: xs, pr, h, hf => by
    rw [List.find?_cons] at h
    cases hx : (isElem x && isM x loc) with
    | true =>
      simp only [hx] at h
      cases h
      rw [replaceFirstElemWithLocal, if_pos hx, List.find?_cons]
      simp only [hf]
    | false =>
      simp only [hx] at h
      rw [replaceFirstElemWithLocal, if_neg (by simp [hx]), List.find?_cons]
      simp only [hx]
      exact find?_replaceFirstElemWithLocal loc f xs pr h hf

/-- Replacing the first matching element preserves an `all` property over the
node list's trees when the replacement preserves it on that node. -/
theorem replaceFirst_allOk (loc : String) (f : XNode → XNode) (ok : XNode → Bool) :
    ∀ l : List XNode,
      (allNodesList l).all ok = true →
      (∀ x : XNode, (isElem x && isM x loc) = true →
        (allNodes x).all ok = true → (allNodes (f x)).all ok = true) →
      (allNodesList (replaceFirstElemWithLocal loc f l)).all ok = true
  | [], h, _ => h
  | x :: xs, h, hpres => by
    rw [allNodesList, List.all_append, Bool.and_eq_true] at h
    rw [replaceFirstElemWithLocal]
    cases hx : (isElem x && isM x loc) with
    | true =>
      rw [if_pos rfl, allNodesList, List.all_append, hpres x hx h.1, h.2]
      rfl
    | false =>
      rw [if_neg (by simp), allNodesList, List.all_append, h.1,
          replaceFirst_allOk loc f ok xs h.2 hpres]
      rfl

/-- `setLimLocUndOvr` preserves the limit-placement property of every node of
the subtree. -/
theorem setLimLocUndOvr_allOk (glyphs : List String) :
    ∀ x : XNode, (isElem x && isM x "limLoc") = true →
      (allNodes x).all (naryLimOk glyphs) = true →
      (allNodes (setLimLocUndOvr x)).all (naryLimOk glyphs) = true
  | .text _, hx, _ => by simp [isElem] at hx
  | .elem lt ln la lc, hx, h => by
    simp only [isElem, isM, tagOf, Bool.true_and, beq_iff_eq] at hx
    rw [allNodes, List.all_cons, Bool.and_eq_true] at h
    have hn : isM (XNode.elem lt ln (setAttr "m:val" "undOvr" la) lc) "nary" = false := by
      simp only [isM, isElem, tagOf, Bool.true_and, hx]
      rfl
    rw [setLimLocUndOvr, allNodes, List.all_cons,
        naryLimOk_of_not_nary glyphs _ hn, h.2]
    rfl

/-- `fixNaryPrLimLoc` keeps the element's tag, namespace and attributes. -/
theorem fixNaryPrLimLoc_shape (ptag : String) (pns : Option String)
    (pattrs : List (String × String)) (pcs : List XNode) :
    ∃ pcs2, fixNaryPrLimLoc (XNode.elem ptag pns pattrs pcs)
      = XNode.elem ptag pns pattrs pcs2 := by
  rw [fixNaryPrLimLoc]
  split
  · exact ⟨_, rfl⟩
  · exact ⟨_, rfl⟩

/-- After `fixNaryPrLimLoc`, the first `m:limLoc` child exists and carries
`m:val="undOvr"` (an existing one overwritten, a missing one created). -/
theorem fixNaryPrLimLoc_undOvr (ptag : String) (pns : Option String)
    (pattrs : List (String × String)) (pcs : List XNode) :
    ∃ lim, firstElemChildWithLocal (fixNaryPrLimLoc (XNode.elem ptag pns pattrs pcs))
        "limLoc" = some lim ∧ getValAttr lim = "undOvr" := by
  rw [fixNaryPrLimLoc]
  cases hL : hasElemChildLocal (XNode.elem ptag pns pattrs pcs) "limLoc" with
  | true =>
    rw [if_pos rfl]
    have hL' : (pcs.any fun c => isElem c && isM c "limLoc") = true := hL
    have hsome : ∃ l0, (pcs.find? fun c => isElem c && isM c "limLoc") = some l0 := by
      have h2 : ((pcs.find? fun c => isElem c && isM c "limLoc")).isSome := by
        rw [List.find?_isSome]
        rw [List.any_eq_true] at hL'
        obtain ⟨y, hy, hp⟩ := hL'
        exact ⟨y, hy, hp⟩
      exact Option.isSome_iff_exists.mp h2
    obtain ⟨l0, hl0⟩ := hsome
    have hp0 := List.find?_some hl0
    cases l0 with
    | text s => simp [isElem] at hp0
    | elem lt ln la lc =>
      have hf : (isElem (setLimLocUndOvr (XNode.elem lt ln la lc))
          && isM (setLimLocUndOvr (XNode.elem lt ln la lc)) "limLoc") = true := by
        rw [setLimLocUndOvr]
        simpa [isElem, isM, tagOf] using hp0
      refine ⟨setLimLocUndOvr (XNode.elem lt ln la lc), ?_, ?_⟩
      · exact find?_replaceFirstElemWithLocal "limLoc" setLimLocUndOvr pcs _ hl0 hf
      · rw [setLimLocUndOvr]
        simp [getValAttr, getAttr, attrsOf, setAttr_find?, Option.orElse]
  | false =>
    rw [if_neg (by simp)]
    refine ⟨mkM "m:limLoc" [("m:val", "undOvr")] [], ?_, rfl⟩
    have hL' : (pcs.any fun c => isElem c && isM c "limLoc") = false := hL
    have hnone : (pcs.find? fun c => isElem c && isM c "limLoc") = none := by
      rw [List.find?_eq_none]
      intro x hx
      rw [List.any_eq_false] at hL'
      simp [hL' x hx]
    show ((pcs ++ [mkM "m:limLoc" [("m:val", "undOvr")] []]).find?
        fun c => isElem c && isM c "limLoc")
      = some (mkM "m:limLoc" [("m:val", "undOvr")] [])
    rw [List.find?_append, hnone]
    rfl

/-- `fixNaryPrLimLoc` preserves the limit-placement property of every node of
the subtree. -/
theorem fixNaryPrLimLoc_allOk (glyphs : List String) :
    ∀ x : XNode, (isElem x && isM x "naryPr") = true →
      (allNodes x).all (naryLimOk glyphs) = true →
      (allNodes (fixNaryPrLimLoc x)).all (naryLimOk glyphs) = true
  | .text _, hx, _ => by simp [isElem] at hx
  | .elem pt pn pa pcs, hx, h => by
    simp only [isElem, isM, tagOf, Bool.true_and, beq_iff_eq] at hx
    rw [allNodes, List.all_cons, Bool.and_eq_true] at h
    have hhead : ∀ pcs2 : List XNode,
        naryLimOk glyphs (XNode.elem pt pn pa pcs2) = true := by
      intro pcs2
      refine naryLimOk_of_not_nary glyphs _ ?_
      simp only [isM, isElem, tagOf, Bool.true_and, hx]
      rfl
    rw [fixNaryPrLimLoc]
    cases hL : hasElemChildLocal (XNode.elem pt pn pa pcs) "limLoc" with
    | true =>
      rw [if_pos rfl, allNodes, List.all_cons, hhead,
          replaceFirst_allOk "limLoc" setLimLocUndOvr _ pcs h.2
            (setLimLocUndOvr_allOk glyphs)]
      rfl
    | false =>
      rw [if_neg (by simp), allNodes, List.all_cons, hhead,
          allNodesList_append, List.all_append, h.2]
      rfl

/-- The per-`m:nary` surgery establishes the limit-placement property for the
node and preserves it below. -/
theorem forceNaryLimUndOvr_allOk (tag : String) (ns : Option String)
    (attrs : List (String × String)) (cs2 : List XNode)
    (hcs : (allNodesList cs2).all (naryLimOk integralLimGlyphs) = true) :
    (allNodes (forceNaryLimUndOvr (XNode.elem tag ns attrs cs2))).all
      (naryLimOk integralLimGlyphs) = true := by
  rw [forceNaryLimUndOvr]
  cases hfind : firstElemChildWithLocal (XNode.elem tag ns attrs cs2) "naryPr" with
  | none =>
    simp only [hfind]
    have hch : naryChrVal (XNode.elem tag ns attrs cs2) = "" := by
      rw [naryChrVal]
      simp only [hfind]
    have hc : integralLimGlyphs.contains "" = false := by decide
    have hhead : naryLimOk integralLimGlyphs (XNode.elem tag ns attrs cs2) = true := by
      unfold naryLimOk
      rw [hch, hc, Bool.and_false, Bool.not_false, Bool.true_or]
    rw [allNodes, List.all_cons, hhead, hcs]
    rfl
  | some pr =>
    simp only [hfind]
    cases hg : integralLimGlyphs.contains (naryChrVal (XNode.elem tag ns attrs cs2)) with
    | false =>
      rw [if_pos (by simp [hg])]
      have hhead : naryLimOk integralLimGlyphs (XNode.elem tag ns attrs cs2) = true := by
        unfold naryLimOk
        rw [hg, Bool.and_false, Bool.not_false, Bool.true_or]
      rw [allNodes, List.all_cons, hhead, hcs]
      rfl
    | true =>
      rw [if_neg (by simp [hg])]
      have hfind' : (cs2.find? fun c => isElem c && isM c "naryPr") = some pr := hfind
      have hp := List.find?_some hfind'
      cases pr with
      | text s => simp [isElem] at hp
      | elem pt pn pa ppcs =>
        obtain ⟨pcs2, hshape⟩ := fixNaryPrLimLoc_shape pt pn pa ppcs
        have hf : (isElem (fixNaryPrLimLoc (XNode.elem pt pn pa ppcs))
            && isM (fixNaryPrLimLoc (XNode.elem pt pn pa ppcs)) "naryPr") = true := by
          rw [hshape]
          simpa [isElem, isM, tagOf] using hp
        have hfound := find?_replaceFirstElemWithLocal "naryPr" fixNaryPrLimLoc cs2 _
          hfind' hf
        obtain ⟨lim, hlim, hval⟩ := fixNaryPrLimLoc_undOvr pt pn pa ppcs
        have hund : hasUndOvrLimLoc
            (XNode.elem tag ns attrs
              (replaceFirstElemWithLocal "naryPr" fixNaryPrLimLoc cs2)) = true := by
          rw [hasUndOvrLimLoc]
          have hfound' : firstElemChildWithLocal
              (XNode.elem tag ns attrs
                (replaceFirstElemWithLocal "naryPr" fixNaryPrLimLoc cs2)) "naryPr"
              = some (fixNaryPrLimLoc (XNode.elem pt pn pa ppcs)) := hfound
          simp only [hfound', hlim]
          rw [hval]
          decide
        rw [allNodes, List.all_cons, naryLimOk_of_undOvr _ _ hund,
            replaceFirst_allOk "naryPr" fixNaryPrLimLoc _ cs2 hcs
              (fixNaryPrLimLoc_allOk integralLimGlyphs)]
        rfl

mutual

/-- After the limit-placement pass, every node of the tree satisfies the
limit-placement property over the source's glyph set. -/
theorem forceIntegral_allOk :
    ∀ n : XNode,
      (allNodes (forceIntegralLimitsUnderOver n)).all
        (naryLimOk integralLimGlyphs) = true
  | .text _ => rfl
  | .elem tag ns attrs cs => by
    have hcs := forceIntegralList_allOk cs
    show (allNodes
        (if isM (XNode.elem tag ns attrs (forceIntegralList cs)) "nary"
         then forceNaryLimUndOvr (XNode.elem tag ns attrs (forceIntegralList cs))
         else XNode.elem tag ns attrs (forceIntegralList cs))).all
      (naryLimOk integralLimGlyphs) = true
    cases hn : isM (XNode.elem tag ns attrs (forceIntegralList cs)) "nary" with
    | true =>
      rw [if_pos rfl]
      exact forceNaryLimUndOvr_allOk tag ns attrs _ hcs
    | false =>
      rw [if_neg (by simp), allNodes, List.all_cons,
          naryLimOk_of_not_nary _ _ hn, hcs]
      rfl

/-- List form of `forceIntegral_allOk`. -/
theorem forceIntegralList_allOk :
    ∀ l : List XNode,
      (allNodesList (forceIntegralList l)).all (naryLimOk integralLimGlyphs) = true
  | [] => rfl
  | x :: xs => by
    rw [forceIntegralList, allNodesList, List.all_append,
        forceIntegral_allOk x, forceIntegralList_allOk xs]
    rfl

end

/-- C3 counterexample: the claim's glyph set names the double integral U+222C
(and triple integral U+222D), but the source's set
`INTEGRAL_CHARS = ["∫", "∮", "∯", "∰"]` has the contour-family glyphs U+222E,
U+222F and U+2230 instead.  A double-integral `m:nary` with no `m:limLoc`
passes through the whole repair pipeline untouched, so after the pipeline it
still lacks the `undOvr` limit location demanded by the claim. -/
theorem repairPipeline_misses_double_integral :
    integralNariesUndOvr claimIntegralGlyphs
      (repairPipelineWithPromotion
        (XNode.elem "root" none []
          [mkM "m:nary" []
            [mkM "m:naryPr" [] [mkM "m:chr" [("m:val", ⟨[Char.ofNat 0x222C]⟩)] []],
             mkM "m:sub" [] [], mkM "m:sup" [] [], mkM "m:e" [] []]])) = false := by
  decide

/-- C3 (amended to the source's glyph set): after `forceIntegralLimitsUnderOver`
runs, every `m:nary` construct whose operator character is one of the glyphs
of the source's set — single integral U+222B, contour integral U+222E, surface
integral U+222F, volume integral U+2230 — has its limit location `m:limLoc`
set to `undOvr`, an existing `m:limLoc` being overwritten and a missing one
created. -/
theorem forceIntegralLimitsUnderOver_forces_undOvr (t : XNode) :
    integralNariesUndOvr integralLimGlyphs (forceIntegralLimitsUnderOver t) = true :=
  forceIntegral_allOk t

/-- C1 counterexample: `<mfrac/>` keeps its `<mfrac` marker through the
pre-clean (so the fraction guard is armed), but it holds no fences, so
`stripFenceDelimiters` changes nothing and `tryMathMlToOmml` returns the
converter's first output unchanged even though it contains no `<m:f>`
construct: a non-null fraction-less fragment, also as invoked from
`buildOmmlFromElement` on the embedded-MathML path.  The converter stand-in
returns a plain run; the DOM-parser stand-in parses exactly the wrapped
fragment the post-processor builds from that run. -/
theorem tryMathMlToOmml_fractionless_non_null :
    testMfracCI (preCleanMathMlForOmml "<mfrac/>") = true ∧
    tryMathMlToOmml (fun _ => some "<m:r><m:t>q</m:t></m:r>")
        (fun s =>
          if s == "<root xmlns:m=\"" ++ M_NS ++ "\"><m:r><m:t>q</m:t></m:r></root>"
          then some (XNode.elem "root" none []
            [mkM "m:r" [] [mkM "m:t" [] [XNode.text "q"]]])
          else none)
        serializeXml "<mfrac/>"
      = some "<m:r><m:t>q</m:t></m:r>" ∧
    buildOmmlFromElement (fun _ => some "<m:r><m:t>q</m:t></m:r>")
        (fun s =>
          if s == "<root xmlns:m=\"" ++ M_NS ++ "\"><m:r><m:t>q</m:t></m:r></root>"
          then some (XNode.elem "root" none []
            [mkM "m:r" [] [mkM "m:t" [] [XNode.text "q"]]])
          else none)
        serializeXml (fun _ _ => none) false none (some "<mfrac/>")
      = some "<m:r><m:t>q</m:t></m:r>" ∧
    strHasSub "<m:r><m:t>q</m:t></m:r>" "<m:f" = false := by
  refine ⟨by decide, by decide, by decide, by decide⟩

/-- C1 (amended): for an input whose cleaned MathML carries an `<mfrac`
marker, `tryMathMlToOmml` returns either `none` (conversion wholly failed)
or a string that contains `<m:f>` whenever the fence-stripped retry — the
last conversion the source can attempt — yields a non-empty output containing
`<m:f>`.  When both the first output and the retry lack a fraction construct
the source returns the fraction-less output rather than `null`, which is
where the original claim fails. -/
theorem tryMathMlToOmml_frac_guard (conv : String → Option String)
    (domParse : String → Option XNode) (ser : XNode → String) (mathML : String)
    (hfrac : testMfracCI (preCleanMathMlForOmml mathML) = true) :
    tryMathMlToOmml conv domParse ser mathML = none ∨
    ∃ s, tryMathMlToOmml conv domParse ser mathML = some s ∧
      (∀ s2, runConverted conv domParse ser
          (stripFenceDelimiters (preCleanMathMlForOmml mathML)) = some s2 →
        strHasSub s2 "<m:f" = true → strHasSub s "<m:f" = true) := by
  unfold tryMathMlToOmml
  cases h1 : runConverted conv domParse ser (preCleanMathMlForOmml mathML) with
  | none =>
    left
    simp only [h1]
  | some first =>
    simp only [h1]
    cases h2 : strHasSub first "<m:f" with
    | true =>
      right
      refine ⟨first, ?_, fun _ _ _ => h2⟩
      simp [hfrac, h2]
    | false =>
      cases h3 : (stripFenceDelimiters (preCleanMathMlForOmml mathML)
          == preCleanMathMlForOmml mathML) with
      | true =>
        right
        refine ⟨first, ?_, ?_⟩
        · simp [hfrac, h2, h3]
        · intro s2 hs2 hm
          rw [eq_of_beq h3, h1] at hs2
          cases hs2
          rw [h2] at hm
          cases hm
      | false =>
        cases h4 : runConverted conv domParse ser
            (stripFenceDelimiters (preCleanMathMlForOmml mathML)) with
        | none =>
          left
          simp [hfrac, h2, h3, h4]
        | some second =>
          right
          cases h5 : (second == "") with
          | false =>
            refine ⟨second, ?_, ?_⟩
            · simp [hfrac, h2, h3, h4, h5]
              intro h
              exact absurd h (by simpa using h5)
            · intro s2 hs2 hm
              cases hs2
              exact hm
          | true =>
            refine ⟨first, ?_, ?_⟩
            · simp [hfrac, h2, h3, h4, h5]
              intro h
              exact absurd (eq_of_beq h5) h
            · intro s2 hs2 hm
              cases hs2
              rw [eq_of_beq h5] at hm
              exact absurd hm (by decide)

/-- C1 witness: the fraction guard applied at the concrete input `<mfrac/>`
with a converter stand-in that always fails (the source's thrown-exception
case), where `tryMathMlToOmml` indeed returns `none`. -/
theorem tryMathMlToOmml_frac_guard_witness :
    testMfracCI (preCleanMathMlForOmml "<mfrac/>") = true ∧
    (tryMathMlToOmml (fun _ => none) (fun _ => none) serializeXml "<mfrac/>" = none ∨
     ∃ s, tryMathMlToOmml (fun _ => none) (fun _ => none) serializeXml "<mfrac/>" = some s ∧
       (∀ s2, runConverted (fun _ => none) (fun _ => none) serializeXml
           (stripFenceDelimiters (preCleanMathMlForOmml "<mfrac/>")) = some s2 →
         strHasSub s2 "<m:f" = true → strHasSub s "<m:f" = true)) :=
  ⟨by decide, tryMathMlToOmml_frac_guard (fun _ => none) (fun _ => none)
    serializeXml "<mfrac/>" (by decide)⟩

end PromptPress
